import Mathlib

/-!
Shallow embedding of the `thrift-parser` grammar engine (`src/definition.rs`
plus the leaf modules it uses).  The repository ships only `definition.rs`;
the leaf modules (`basic.rs`, `constant.rs`, `field.rs`, `functions.rs`,
`types.rs`) are declared and used there but their sources are not in the
repository snapshot, so they are modelled from the specification (each such
definition carries a doc comment starting `Modelled from the spec:`).

Parsers follow the nom shape `IResult<&str, T>`: a function from the
remaining input to either the pair (unconsumed remainder, node) or a
failure value carrying the input at the failure position (nom's
`Error::input`).  Input is a list of characters.
-/

namespace ThriftParser

abbrev Input := List Char

/-- The nom `IResult` shape: remaining input to remainder-and-value or an
error holding the input at the failure position. -/
abbrev P (α : Type) : Type := Input → Except Input (Input × α)

/-- nom sequencing (the glue inside `tuple`, `pair`, `preceded`, ...). -/
def pbind {α β : Type} (p : P α) (f : α → P β) : P β := fun input =>
  match p input with
  | .error e => .error e
  | .ok (rest, a) => f a rest

/-- A parser consuming nothing and yielding `a`. -/
def ppure {α : Type} (a : α) : P α := fun input => .ok (input, a)

instance : Monad P where
  pure := ppure
  bind := pbind

theorem bind_eq {α β : Type} (p : P α) (f : α → P β) : p >>= f = pbind p f := rfl

theorem pure_eq {α : Type} (a : α) : (pure a : P α) = ppure a := rfl

/-- nom `map`. -/
def pmap {α β : Type} (f : α → β) (p : P α) : P β := fun input =>
  match p input with
  | .error e => .error e
  | .ok (rest, a) => .ok (rest, f a)

/-- nom `opt`: never fails, backtracks fully when the inner parser fails. -/
def popt {α : Type} (p : P α) : P (Option α) := fun input =>
  match p input with
  | .error _ => .ok (input, none)
  | .ok (rest, a) => .ok (rest, some a)

/-- nom `alt` on two alternatives: try `p`, on failure try `q` on the same
input. -/
def palt {α : Type} (p q : P α) : P α := fun input =>
  match p input with
  | .error _ => q input
  | .ok r => .ok r

/-- Matching helper for `tag`: strip the literal `s` from the input. -/
def tagAux : List Char → Input → Option Input
  | [], input => some input
  | _ :: _, [] => none
  | c :: s, c' :: input => if c = c' then tagAux s input else none

/-- nom `tag`: match a literal string. -/
def tagP (s : List Char) : P (List Char) := fun input =>
  match tagAux s input with
  | some rest => .ok (rest, s)
  | none => .error input

/-- nom `char`: match one given character. -/
def charP (c : Char) : P Char := fun input =>
  match input with
  | [] => .error input
  | c' :: rest => if c' = c then .ok (rest, c) else .error input

/-- Split the input at the first character violating `p` (the recognizer
loop behind the maximal-run lexical rules). -/
def spanWhile (p : Char → Bool) : Input → (List Char × Input)
  | [] => ([], [])
  | c :: rest =>
    if p c then
      let (a, b) := spanWhile p rest
      (c :: a, b)
    else ([], c :: rest)

/-- nom `separated_list0` inner loop, with explicit fuel (every separator
accepted by this grammar consumes at least one character, so fuel of
`input.length + 1` is never exhausted; on exhaustion the accumulated list
is returned).  Mirrors nom's infinite-loop guard: a separator match that
consumes nothing is an error. -/
def sepListLoop {α β : Type} (sep : P α) (item : P β) : Nat → List β → P (List β)
  | 0, acc => fun input => .ok (input, acc.reverse)
  | n + 1, acc => fun input =>
    match sep input with
    | .error _ => .ok (input, acc.reverse)
    | .ok (i1, _) =>
      if i1 = input then .error input
      else
        match item i1 with
        | .error _ => .ok (input, acc.reverse)
        | .ok (i2, b) => sepListLoop sep item n (b :: acc) i2

/-- nom `separated_list0`. -/
def sepList0 {α β : Type} (sep : P α) (item : P β) (fuel : Nat) : P (List β) := fun input =>
  match item input with
  | .error _ => .ok (input, [])
  | .ok (i1, b) => sepListLoop sep item fuel [b] i1

/-- nom `separated_list1` (used for the one-or-more throws field list). -/
def sepList1 {α β : Type} (sep : P α) (item : P β) (fuel : Nat) : P (List β) := fun input =>
  match item input with
  | .error e => .error e
  | .ok (i1, b) => sepListLoop sep item fuel [b] i1

/-! ### Lexical primitives (`basic.rs`) -/

def isHSpace (c : Char) : Bool := c = ' ' || c = '\t'

/-- Modelled from the spec: `Space` (basic.rs is not in the snapshot)
matches a maximal run of non-newline whitespace, at least one character
(zero-width occurrences are expressed by `opt` at the use sites). -/
def spaceP : P (List Char) := fun input =>
  let (sp, rest) := spanWhile isHSpace input
  if sp.isEmpty then .error input else .ok (rest, sp)

/-- Modelled from the spec: `Linefeed` (basic.rs is not in the snapshot)
matches one newline sequence. -/
def linefeedP : P Unit := fun input =>
  match input with
  | [] => .error input
  | c :: rest =>
    if c = '\n' then .ok (rest, ())
    else
      if c = '\r' then
        match rest with
        | c2 :: rest2 => if c2 = '\n' then .ok (rest2, ()) else .error input
        | [] => .error input
      else .error input

/-- Modelled from the spec: `Comment` (basic.rs is not in the snapshot)
matches a line comment (`//` or `#` up to but excluding the end of line)
or a non-nesting block comment (`/*` ... `*/`); the text minus the
delimiters is captured verbatim. -/
def blockCommentEnd : Input → Option (List Char × Input)
  | [] => none
  | c :: rest =>
    if c = '*' then
      match rest with
      | '/' :: rest2 => some ([], rest2)
      | _ =>
        match blockCommentEnd rest with
        | none => none
        | some (txt, rem) => some (c :: txt, rem)
    else
      match blockCommentEnd rest with
      | none => none
      | some (txt, rem) => some (c :: txt, rem)

def notEol (c : Char) : Bool := !(c = '\n' || c = '\r')

def commentP : P (List Char) := fun input =>
  match input with
  | [] => .error input
  | c :: rest =>
    if c = '#' then
      let (txt, rem) := spanWhile notEol rest
      .ok (rem, txt)
    else
      if c = '/' then
        match rest with
        | [] => .error input
        | c2 :: rest2 =>
          if c2 = '/' then
            let (txt, rem) := spanWhile notEol rest2
            .ok (rem, txt)
          else
            if c2 = '*' then
              match blockCommentEnd rest2 with
              | some (txt, rem) => .ok (rem, txt)
              | none => .error input
            else .error input
      else .error input

/-- One unit of a separator run: horizontal whitespace, a newline, or a
comment. -/
def sepUnitP : P Unit :=
  palt (pmap (fun _ => ()) spaceP) (palt linefeedP (pmap (fun _ => ()) commentP))

def separatorLoop : Nat → P Unit
  | 0 => fun input => .ok (input, ())
  | n + 1 => fun input =>
    match sepUnitP input with
    | .error _ => .ok (input, ())
    | .ok (rest, _) => separatorLoop n rest

/-- Modelled from the spec: `Separator` (basic.rs is not in the snapshot)
matches a maximal run of interleaved whitespace and comments, at least one
unit. -/
def separatorP (fuel : Nat) : P Unit := fun input =>
  match sepUnitP input with
  | .error e => .error e
  | .ok (rest, _) => separatorLoop fuel rest

/-- Modelled from the spec: `ListSeparator` (basic.rs is not in the
snapshot) matches a single comma or semicolon. -/
def listSeparatorP : P Unit := fun input =>
  match input with
  | [] => .error input
  | c :: rest => if c = ',' || c = ';' then .ok (rest, ()) else .error input

def isIdentStart (c : Char) : Bool := c.isAlpha || c = '_'

def isIdentCont (c : Char) : Bool := c.isAlphanum || c = '_'

/-- Modelled from the spec: `Identifier` (basic.rs is not in the snapshot)
matches letter-or-underscore followed by alphanumeric-or-underscore. -/
def identifierP : P (List Char) := fun input =>
  match input with
  | [] => .error input
  | c :: rest =>
    if isIdentStart c then
      let (tl, rest2) := spanWhile isIdentCont rest
      .ok (rest2, c :: tl)
    else .error input

/-- Modelled from the spec: `parse_list_separator` (constant.rs is not in
the snapshot) matches a comma/semicolon optionally surrounded by
separators, or a bare non-empty separator run. -/
def parseListSeparator (fuel : Nat) : P Unit :=
  palt
    (pbind (popt (separatorP fuel)) fun _ =>
      pbind listSeparatorP fun _ =>
        pmap (fun _ => ()) (popt (separatorP fuel)))
    (separatorP fuel)

/-! ### Constants (`constant.rs`) -/

def digitsToNat (ds : List Char) : Nat :=
  ds.foldl (fun acc c => acc * 10 + (c.toNat - 48)) 0

/-- Modelled from the spec: `IntConstant` (constant.rs is not in the
snapshot): optional sign, one-or-more decimal digits, value in the signed
64-bit range. -/
def intConstantP : P Int := fun input =>
  let (sign, rest) :=
    match input with
    | '+' :: r => ((1 : Int), r)
    | '-' :: r => ((-1 : Int), r)
    | _ => ((1 : Int), input)
  let (ds, rest2) := spanWhile Char.isDigit rest
  if ds.isEmpty then .error input
  else
    let v : Int := sign * (digitsToNat ds : Int)
    if v < -(2 ^ 63) ∨ 2 ^ 63 ≤ v then .error input else .ok (rest2, v)

/-- Modelled from the spec: floating-point constant (constant.rs is not in
the snapshot): optional sign, digits, required decimal point and
fractional digits, optional exponent.  The matched text is kept verbatim
(the spec treats the float only as an atomic leaf). -/
def doubleConstantP : P (List Char) := fun input =>
  let (sign, rest) :=
    match input with
    | '+' :: r => (['+'], r)
    | '-' :: r => (['-'], r)
    | _ => ([], input)
  let (ds, rest2) := spanWhile Char.isDigit rest
  if ds.isEmpty then .error input
  else
    match rest2 with
    | '.' :: rest3 =>
      let (fs, rest4) := spanWhile Char.isDigit rest3
      if fs.isEmpty then .error input
      else
        match rest4 with
        | 'e' :: rest5 =>
          let (es, rest6) := spanWhile Char.isDigit rest5
          if es.isEmpty then .ok (rest4, sign ++ ds ++ '.' :: fs)
          else .ok (rest6, sign ++ ds ++ '.' :: fs ++ 'e' :: es)
        | _ => .ok (rest4, sign ++ ds ++ '.' :: fs)
    | _ => .error input

/-- Modelled from the spec: quoted string literal (constant.rs is not in
the snapshot): content delimited by a single or double quote, the same
quote closing it, content passed through without escape interpretation. -/
def literalP : P (List Char) := fun input =>
  match input with
  | [] => .error input
  | q :: rest =>
    if q = '\'' || q = '"' then
      let (txt, rest2) := spanWhile (fun c => c != q) rest
      match rest2 with
      | _ :: rest3 => .ok (rest3, txt)
      | [] => .error input
    else .error input

/-! ### View-form AST leaf types.  Textual leaves of the view form are
character slices of the source buffer (`List Char`); the owned form (below)
stores independent `String` copies. -/

/-- `FieldTypeRef` (types.rs, modelled from the spec): base types,
named-type references, and recursive containers. -/
inductive FieldTypeRef : Type where
  | bool
  | byte
  | i8
  | i16
  | i32
  | i64
  | double
  | string
  | binary
  | ref (name : List Char)
  | list (t : FieldTypeRef)
  | set (t : FieldTypeRef)
  | map (k v : FieldTypeRef)
deriving Repr, DecidableEq

/-- `ConstValueRef` (constant.rs, modelled from the spec): integer, float,
string literal, identifier reference, ordered list, ordered map pairs. -/
inductive ConstValueRef : Type where
  | int (v : Int)
  | double (text : List Char)
  | literal (s : List Char)
  | ident (s : List Char)
  | list (xs : List ConstValueRef)
  | map (xs : List (ConstValueRef × ConstValueRef))
deriving Repr

/-- `FieldRef` (field.rs, modelled from the spec): optional numeric id,
tri-state requiredness (`some true` = required, `some false` = optional,
`none` = unspecified), type, name, optional default. -/
structure FieldRef : Type where
  id : Option Int
  required : Option Bool
  type_ : FieldTypeRef
  name : List Char
  default : Option ConstValueRef
deriving Repr

/-- `FunctionRef` (functions.rs, modelled from the spec): oneway flag,
optional return type (`none` = void), name, parameters, optional throws
list. -/
structure FunctionRef : Type where
  oneway : Bool
  returns : Option FieldTypeRef
  name : List Char
  parameters : List FieldRef
  exceptions : Option (List FieldRef)
deriving Repr

/-! ### Type-expression parsers (`types.rs`) -/

/-- Modelled from the spec: `FieldTypeRef::parse_base_type` — the fixed
keyword set, each keyword mapped to its discriminant. -/
def fieldTypeBaseP : P FieldTypeRef :=
  palt (pmap (fun _ => FieldTypeRef.bool) (tagP "bool".toList))
    (palt (pmap (fun _ => FieldTypeRef.byte) (tagP "byte".toList))
      (palt (pmap (fun _ => FieldTypeRef.i8) (tagP "i8".toList))
        (palt (pmap (fun _ => FieldTypeRef.i16) (tagP "i16".toList))
          (palt (pmap (fun _ => FieldTypeRef.i32) (tagP "i32".toList))
            (palt (pmap (fun _ => FieldTypeRef.i64) (tagP "i64".toList))
              (palt (pmap (fun _ => FieldTypeRef.double) (tagP "double".toList))
                (palt (pmap (fun _ => FieldTypeRef.string) (tagP "string".toList))
                  (pmap (fun _ => FieldTypeRef.binary) (tagP "binary".toList)))))))))

/-- Modelled from the spec: `list<` FieldType `>` with optional separators
around the angle brackets and inner type. -/
def listTypeP (sf : Nat) (inner : P FieldTypeRef) : P FieldTypeRef :=
  pmap FieldTypeRef.list (do
    _ ← tagP "list".toList
    _ ← popt (separatorP sf)
    _ ← charP '<'
    _ ← popt (separatorP sf)
    let t ← inner
    _ ← popt (separatorP sf)
    _ ← charP '>'
    pure t)

/-- Modelled from the spec: `set<` FieldType `>`. -/
def setTypeP (sf : Nat) (inner : P FieldTypeRef) : P FieldTypeRef :=
  pmap FieldTypeRef.set (do
    _ ← tagP "set".toList
    _ ← popt (separatorP sf)
    _ ← charP '<'
    _ ← popt (separatorP sf)
    let t ← inner
    _ ← popt (separatorP sf)
    _ ← charP '>'
    pure t)

/-- Modelled from the spec: `map<` FieldType `,` FieldType `>`. -/
def mapTypeP (sf : Nat) (inner : P FieldTypeRef) : P FieldTypeRef :=
  pmap (fun kv => FieldTypeRef.map kv.1 kv.2) (do
    _ ← tagP "map".toList
    _ ← popt (separatorP sf)
    _ ← charP '<'
    _ ← popt (separatorP sf)
    let k ← inner
    _ ← popt (separatorP sf)
    _ ← charP ','
    _ ← popt (separatorP sf)
    let v ← inner
    _ ← popt (separatorP sf)
    _ ← charP '>'
    pure (k, v))

/-- Modelled from the spec: `FieldTypeRef::parse_container_type` — one of
the three container forms. -/
def containerTypeP (sf : Nat) (inner : P FieldTypeRef) : P FieldTypeRef :=
  palt (listTypeP sf inner) (palt (setTypeP sf inner) (mapTypeP sf inner))

/-- Modelled from the spec: `FieldTypeRef::parse` — base type, else
container type, else a bare identifier as a named-type reference.  Fuel
bounds the container nesting depth (each level consumes input, so
`input.length + 1` at the entry point is never exhausted). -/
def fieldTypeP : Nat → P FieldTypeRef
  | 0 => fun input => .error input
  | n + 1 =>
    palt fieldTypeBaseP
      (palt (containerTypeP (n + 1) (fieldTypeP n)) (pmap FieldTypeRef.ref identifierP))

/-- The type position of a Typedef: base type or container type only (no
identifier fallback); see the grammar comment at definition.rs lines
80-83. -/
def typedefOldP : Nat → P FieldTypeRef
  | 0 => fun input => .error input
  | n + 1 => palt fieldTypeBaseP (containerTypeP (n + 1) (fieldTypeP n))

/-! ### Constant-value parser (`constant.rs`) -/

/-- Modelled from the spec: a bracketed list of constant values separated
by list separators. -/
def constListP (sf : Nat) (inner : P ConstValueRef) : P ConstValueRef :=
  pmap ConstValueRef.list (do
    _ ← charP '['
    _ ← popt (separatorP sf)
    let xs ← sepList0 (parseListSeparator sf) inner sf
    _ ← popt (separatorP sf)
    _ ← charP ']'
    pure xs)

/-- Modelled from the spec: a braced list of `ConstValue ':' ConstValue`
pairs separated by list separators. -/
def constMapP (sf : Nat) (inner : P ConstValueRef) : P ConstValueRef :=
  pmap ConstValueRef.map (do
    _ ← charP '{'
    _ ← popt (separatorP sf)
    let xs ← sepList0 (parseListSeparator sf)
      (do
        let k ← inner
        _ ← popt (separatorP sf)
        _ ← charP ':'
        _ ← popt (separatorP sf)
        let v ← inner
        pure (k, v)) sf
    _ ← popt (separatorP sf)
    _ ← charP '}'
    pure xs)

/-- Modelled from the spec: `ConstValueRef::parse` tries, in order,
integer, float, string literal, list, map, then falls back to an
identifier reference. -/
def constValueP : Nat → P ConstValueRef
  | 0 => fun input => .error input
  | n + 1 =>
    palt (pmap ConstValueRef.int intConstantP)
      (palt (pmap ConstValueRef.double doubleConstantP)
        (palt (pmap ConstValueRef.literal literalP)
          (palt (constListP (n + 1) (constValueP n))
            (palt (constMapP (n + 1) (constValueP n))
              (pmap ConstValueRef.ident identifierP)))))

/-! ### Field parser (`field.rs`) -/

/-- Modelled from the spec (section 4.4) together with the in-repo tests
`test_struct` and `test_service`: optional `IntConstant ':'` id prefix
with optional separators around the colon; optional
`required`/`optional` keyword followed by a separator; field type;
separator; name; optional `'=' ConstValue` default with optional
separators; and a trailing optional list separator (the tests require a
field to consume the `;`/`,` that follows it inside struct bodies). -/
def fieldP (fuel : Nat) : P FieldRef := do
  let fid ← popt (do
    let v ← intConstantP
    _ ← popt (separatorP fuel)
    _ ← charP ':'
    _ ← popt (separatorP fuel)
    pure v)
  let req ← popt (do
    let r ← palt (pmap (fun _ => true) (tagP "required".toList))
      (pmap (fun _ => false) (tagP "optional".toList))
    _ ← separatorP fuel
    pure r)
  let t ← fieldTypeP fuel
  _ ← separatorP fuel
  let nm ← identifierP
  let dflt ← popt (do
    _ ← popt (separatorP fuel)
    _ ← charP '='
    _ ← popt (separatorP fuel)
    constValueP fuel)
  _ ← popt (do
    _ ← popt (separatorP fuel)
    listSeparatorP)
  pure { id := fid, required := req, type_ := t, name := nm, default := dflt }

/-! ### Function parser (`functions.rs`) -/

/-- Modelled from the spec (section 4.5) together with the in-repo test
`test_service`: optional `oneway` keyword plus separator; `void` or a
field type as the return type; separator; name; parenthesized parameter
fields separated by list separators; optional `throws (...)` clause with
one-or-more fields; and a trailing optional list separator (the test
requires a function to consume the `,` that follows it inside service
bodies). -/
def functionP (fuel : Nat) : P FunctionRef := do
  let ow ← popt (do
    _ ← tagP "oneway".toList
    separatorP fuel)
  let ret ← palt (pmap (fun _ => (none : Option FieldTypeRef)) (tagP "void".toList))
    (pmap some (fieldTypeP fuel))
  _ ← separatorP fuel
  let nm ← identifierP
  _ ← charP '('
  _ ← popt (separatorP fuel)
  let ps ← sepList0 (parseListSeparator fuel) (fieldP fuel) fuel
  _ ← popt (separatorP fuel)
  _ ← charP ')'
  let exs ← popt (do
    _ ← popt (separatorP fuel)
    _ ← tagP "throws".toList
    _ ← popt (separatorP fuel)
    _ ← charP '('
    _ ← popt (separatorP fuel)
    let xs ← sepList1 (parseListSeparator fuel) (fieldP fuel) fuel
    _ ← popt (separatorP fuel)
    _ ← charP ')'
    pure xs)
  _ ← popt (do
    _ ← popt (separatorP fuel)
    listSeparatorP)
  pure { oneway := ow.isSome, returns := ret, name := nm, parameters := ps, exceptions := exs }

/-! ### Definition nodes, view form (`definition.rs`) -/

/-- The shared leading doc-comment block of every definition parser
(definition.rs, e.g. lines 31-34): a comment terminated by a linefeed and
optional horizontal space, the whole block optional. -/
def docBlockP : P (List Char) := do
  let c ← commentP
  _ ← linefeedP
  _ ← popt spaceP
  pure c

def docCommentP : P (Option (List Char)) := popt docBlockP

/-- `ConstRef` (definition.rs lines 19-25). -/
structure ConstRef : Type where
  doc_comment : Option (List Char)
  name : List Char
  type_ : FieldTypeRef
  value : ConstValueRef
deriving Repr

/-- Body of `ConstRef::parse` after the doc block (definition.rs lines
35-40): keyword, type, name, `=`, value, optional trailing list
separator. -/
def constBodyP (fuel : Nat) : P (FieldTypeRef × List Char × ConstValueRef) := do
  _ ← tagP "const".toList
  _ ← separatorP fuel
  let t ← fieldTypeP fuel
  _ ← separatorP fuel
  let nm ← identifierP
  _ ← popt (separatorP fuel)
  _ ← charP '='
  _ ← popt (separatorP fuel)
  let v ← constValueP fuel
  _ ← popt (do
    _ ← popt (separatorP fuel)
    listSeparatorP)
  pure (t, nm, v)

/-- `ConstRef::parse` (definition.rs lines 27-50). -/
def constRefP (fuel : Nat) : P ConstRef :=
  pbind docCommentP fun doc =>
    pmap (fun b => ⟨doc, b.2.1, b.1, b.2.2⟩) (constBodyP fuel)

/-- `TypedefRef` (definition.rs lines 84-89).  The source field `alias` is
spelled `alias_` here because `alias` is a reserved word in Lean. -/
structure TypedefRef : Type where
  doc_comment : Option (List Char)
  old : FieldTypeRef
  alias_ : List Char
deriving Repr

/-- Body of `TypedefRef::parse` (definition.rs lines 99-107): keyword,
base-or-container type, name. -/
def typedefBodyP (fuel : Nat) : P (FieldTypeRef × List Char) := do
  _ ← tagP "typedef".toList
  _ ← separatorP fuel
  let old ← typedefOldP fuel
  _ ← separatorP fuel
  let al ← identifierP
  pure (old, al)

/-- `TypedefRef::parse` (definition.rs lines 91-116). -/
def typedefRefP (fuel : Nat) : P TypedefRef :=
  pbind docCommentP fun doc =>
    pmap (fun b => ⟨doc, b.1, b.2⟩) (typedefBodyP fuel)

/-- `EnumValueRef` (definition.rs lines 152-156). -/
structure EnumValueRef : Type where
  name : List Char
  value : Option Int
deriving Repr, DecidableEq

/-- `EnumRef` (definition.rs lines 145-150). -/
structure EnumRef : Type where
  doc_comment : Option (List Char)
  name : List Char
  children : List EnumValueRef
deriving Repr, DecidableEq

/-- `EnumValueRef::parse` (definition.rs lines 182-200): name, optional
`= IntConstant`. -/
def enumValueP (fuel : Nat) : P EnumValueRef := do
  let nm ← identifierP
  let v ← popt (do
    _ ← popt (separatorP fuel)
    _ ← charP '='
    _ ← popt (separatorP fuel)
    intConstantP)
  pure ⟨nm, v⟩

/-- Body of `EnumRef::parse` (definition.rs lines 166-171): keyword, name,
braces around a list of enum values separated by list separators, with an
optional trailing list separator. -/
def enumBodyP (fuel : Nat) : P (List Char × List EnumValueRef) := do
  _ ← tagP "enum".toList
  _ ← separatorP fuel
  let nm ← identifierP
  _ ← popt (separatorP fuel)
  _ ← charP '{'
  _ ← popt (separatorP fuel)
  let cs ← sepList0 (parseListSeparator fuel) (enumValueP fuel) fuel
  _ ← popt (parseListSeparator fuel)
  _ ← popt (separatorP fuel)
  _ ← charP '}'
  pure (nm, cs)

/-- `EnumRef::parse` (definition.rs lines 158-180). -/
def enumRefP (fuel : Nat) : P EnumRef :=
  pbind docCommentP fun doc =>
    pmap (fun b => ⟨doc, b.1, b.2⟩) (enumBodyP fuel)

/-- `StructRef` (definition.rs lines 250-255). -/
structure StructRef : Type where
  doc_comment : Option (List Char)
  name : List Char
  fields : List FieldRef
deriving Repr

/-- The shared body shape of struct/union/exception (definition.rs lines
265-269, 322-326, 379-383): keyword plus separator, name, braces around a
list of fields separated by plain separators. -/
def fieldsBodyP (kw : List Char) (fuel : Nat) : P (List Char × List FieldRef) := do
  _ ← tagP kw
  _ ← separatorP fuel
  let nm ← identifierP
  _ ← popt (separatorP fuel)
  _ ← charP '{'
  _ ← popt (separatorP fuel)
  let fs ← sepList0 (separatorP fuel) (fieldP fuel) fuel
  _ ← popt (separatorP fuel)
  _ ← charP '}'
  pure (nm, fs)

/-- `StructRef::parse` (definition.rs lines 257-278). -/
def structRefP (fuel : Nat) : P StructRef :=
  pbind docCommentP fun doc =>
    pmap (fun b => ⟨doc, b.1, b.2⟩) (fieldsBodyP "struct".toList fuel)

/-- `UnionRef` (definition.rs lines 307-312). -/
structure UnionRef : Type where
  doc_comment : Option (List Char)
  name : List Char
  fields : List FieldRef
deriving Repr

/-- `UnionRef::parse` (definition.rs lines 314-335). -/
def unionRefP (fuel : Nat) : P UnionRef :=
  pbind docCommentP fun doc =>
    pmap (fun b => ⟨doc, b.1, b.2⟩) (fieldsBodyP "union".toList fuel)

/-- `ExceptionRef` (definition.rs lines 364-369). -/
structure ExceptionRef : Type where
  doc_comment : Option (List Char)
  name : List Char
  fields : List FieldRef
deriving Repr

/-- `ExceptionRef::parse` (definition.rs lines 371-392). -/
def exceptionRefP (fuel : Nat) : P ExceptionRef :=
  pbind docCommentP fun doc =>
    pmap (fun b => ⟨doc, b.1, b.2⟩) (fieldsBodyP "exception".toList fuel)

/-- `ServiceRef` (definition.rs lines 421-427). -/
structure ServiceRef : Type where
  doc_comment : Option (List Char)
  name : List Char
  extension : Option (List Char)
  functions : List FunctionRef
deriving Repr

/-- Body of `ServiceRef::parse` (definition.rs lines 437-455): keyword,
name, optional `extends Identifier`, braces around a list of functions
separated by plain separators. -/
def serviceBodyP (fuel : Nat) : P (List Char × Option (List Char) × List FunctionRef) := do
  _ ← tagP "service".toList
  _ ← separatorP fuel
  let nm ← identifierP
  _ ← popt (separatorP fuel)
  let ext ← popt (do
    _ ← tagP "extends".toList
    _ ← separatorP fuel
    let e ← identifierP
    _ ← popt (separatorP fuel)
    pure e)
  _ ← charP '{'
  _ ← popt (separatorP fuel)
  let fns ← sepList0 (separatorP fuel) (functionP fuel) fuel
  _ ← popt (separatorP fuel)
  _ ← charP '}'
  pure (nm, ext, fns)

/-- `ServiceRef::parse` (definition.rs lines 429-465). -/
def serviceRefP (fuel : Nat) : P ServiceRef :=
  pbind docCommentP fun doc =>
    pmap (fun b => ⟨doc, b.1, b.2.1, b.2.2⟩) (serviceBodyP fuel)

/-! ### Entry points on strings.  The fuel bounds only the recursion depth
of loops and nested types, each of which consumes at least one character
per step, so `length + 1` is never exhausted. -/

def ConstRef.parse (s : String) : Except Input (Input × ConstRef) :=
  constRefP (s.toList.length + 1) s.toList

def TypedefRef.parse (s : String) : Except Input (Input × TypedefRef) :=
  typedefRefP (s.toList.length + 1) s.toList

def EnumRef.parse (s : String) : Except Input (Input × EnumRef) :=
  enumRefP (s.toList.length + 1) s.toList

def StructRef.parse (s : String) : Except Input (Input × StructRef) :=
  structRefP (s.toList.length + 1) s.toList

def UnionRef.parse (s : String) : Except Input (Input × UnionRef) :=
  unionRefP (s.toList.length + 1) s.toList

def ExceptionRef.parse (s : String) : Except Input (Input × ExceptionRef) :=
  exceptionRefP (s.toList.length + 1) s.toList

def ServiceRef.parse (s : String) : Except Input (Input × ServiceRef) :=
  serviceRefP (s.toList.length + 1) s.toList

/-! ### Owned-form AST.  Textual leaves are independent `String` copies of
the view form's slices; the conversions below mirror the `From<...Ref>`
impls (the definition-level ones are in definition.rs; the leaf ones are
modelled from the spec: conversion copies the borrowed text). -/

/-- `FieldType` (types.rs, modelled from the spec). -/
inductive FieldType : Type where
  | bool
  | byte
  | i8
  | i16
  | i32
  | i64
  | double
  | string
  | binary
  | ref (name : String)
  | list (t : FieldType)
  | set (t : FieldType)
  | map (k v : FieldType)
deriving Repr

/-- Modelled from the spec: `From<FieldTypeRef> for FieldType`
(types.rs): every variant converted structurally, borrowed names copied. -/
def FieldTypeRef.toOwned : FieldTypeRef → FieldType
  | .bool => .bool
  | .byte => .byte
  | .i8 => .i8
  | .i16 => .i16
  | .i32 => .i32
  | .i64 => .i64
  | .double => .double
  | .string => .string
  | .binary => .binary
  | .ref n => .ref n.asString
  | .list t => .list t.toOwned
  | .set t => .set t.toOwned
  | .map k v => .map k.toOwned v.toOwned

/-- `ConstValue` (constant.rs, modelled from the spec). -/
inductive ConstValue : Type where
  | int (v : Int)
  | double (text : String)
  | literal (s : String)
  | ident (s : String)
  | list (xs : List ConstValue)
  | map (xs : List (ConstValue × ConstValue))
deriving Repr

mutual

/-- Modelled from the spec: `From<ConstValueRef> for ConstValue`
(constant.rs): structural conversion, borrowed text copied, children
converted in order. -/
def ConstValueRef.toOwned : ConstValueRef → ConstValue
  | .int v => .int v
  | .double t => .double t.asString
  | .literal s => .literal s.asString
  | .ident s => .ident s.asString
  | .list xs => .list (cvListToOwned xs)
  | .map xs => .map (cvPairsToOwned xs)

def cvListToOwned : List ConstValueRef → List ConstValue
  | [] => []
  | x :: xs => x.toOwned :: cvListToOwned xs

def cvPairsToOwned : List (ConstValueRef × ConstValueRef) → List (ConstValue × ConstValue)
  | [] => []
  | (a, b) :: xs => (a.toOwned, b.toOwned) :: cvPairsToOwned xs

end

/-- `Field` (field.rs, modelled from the spec). -/
structure Field : Type where
  id : Option Int
  required : Option Bool
  type_ : FieldType
  name : String
  default : Option ConstValue
deriving Repr

/-- Modelled from the spec: `From<FieldRef> for Field` (field.rs). -/
def FieldRef.toOwned (r : FieldRef) : Field :=
  { id := r.id
    required := r.required
    type_ := r.type_.toOwned
    name := r.name.asString
    default := r.default.map ConstValueRef.toOwned }

/-- `Function` (functions.rs, modelled from the spec). -/
structure Function : Type where
  oneway : Bool
  returns : Option FieldType
  name : String
  parameters : List Field
  exceptions : Option (List Field)
deriving Repr

/-- Modelled from the spec: `From<FunctionRef> for Function`
(functions.rs). -/
def FunctionRef.toOwned (r : FunctionRef) : Function :=
  { oneway := r.oneway
    returns := r.returns.map FieldTypeRef.toOwned
    name := r.name.asString
    parameters := r.parameters.map FieldRef.toOwned
    exceptions := r.exceptions.map (fun xs => xs.map FieldRef.toOwned) }

/-- `Const` (definition.rs lines 52-58). -/
structure Const : Type where
  doc_comment : Option String
  name : String
  type_ : FieldType
  value : ConstValue
deriving Repr

/-- `From<ConstRef> for Const` (definition.rs lines 60-72). -/
def ConstRef.toOwned (r : ConstRef) : Const :=
  { doc_comment :=
      match r.doc_comment with
      | some d => some d.asString
      | none => none
    name := r.name.asString
    type_ := r.type_.toOwned
    value := r.value.toOwned }

/-- `Typedef` (definition.rs lines 118-123). -/
structure Typedef : Type where
  doc_comment : Option String
  old : FieldType
  alias_ : String
deriving Repr

/-- `From<TypedefRef> for Typedef` (definition.rs lines 125-136). -/
def TypedefRef.toOwned (r : TypedefRef) : Typedef :=
  { doc_comment :=
      match r.doc_comment with
      | some d => some d.asString
      | none => none
    old := r.old.toOwned
    alias_ := r.alias_.asString }

/-- `EnumValue` (definition.rs lines 209-213). -/
structure EnumValue : Type where
  name : String
  value : Option Int
deriving Repr, DecidableEq

/-- `From<EnumValueRef> for EnumValue` (definition.rs lines 228-235). -/
def EnumValueRef.toOwned (r : EnumValueRef) : EnumValue :=
  { name := r.name.asString, value := r.value }

/-- `Enum` (definition.rs lines 202-207). -/
structure Enum : Type where
  doc_comment : Option String
  name : String
  children : List EnumValue
deriving Repr, DecidableEq

/-- `From<EnumRef> for Enum` (definition.rs lines 215-226). -/
def EnumRef.toOwned (r : EnumRef) : Enum :=
  { doc_comment :=
      match r.doc_comment with
      | some e => some e.asString
      | none => none
    name := r.name.asString
    children := r.children.map EnumValueRef.toOwned }

/-- `Struct` (definition.rs lines 280-285). -/
structure Struct : Type where
  doc_comment : Option String
  name : String
  fields : List Field
deriving Repr

/-- `From<StructRef> for Struct` (definition.rs lines 287-298). -/
def StructRef.toOwned (r : StructRef) : Struct :=
  { doc_comment :=
      match r.doc_comment with
      | some d => some d.asString
      | none => none
    name := r.name.asString
    fields := r.fields.map FieldRef.toOwned }

/-- `Union` (definition.rs lines 337-342). -/
structure Union : Type where
  doc_comment : Option String
  name : String
  fields : List Field
deriving Repr

/-- `From<UnionRef> for Union` (definition.rs lines 344-355). -/
def UnionRef.toOwned (r : UnionRef) : Union :=
  { doc_comment :=
      match r.doc_comment with
      | some d => some d.asString
      | none => none
    name := r.name.asString
    fields := r.fields.map FieldRef.toOwned }

/-- `Exception` (definition.rs lines 394-399). -/
structure Exception : Type where
  doc_comment : Option String
  name : String
  fields : List Field
deriving Repr

/-- `From<ExceptionRef> for Exception` (definition.rs lines 401-412). -/
def ExceptionRef.toOwned (r : ExceptionRef) : Exception :=
  { doc_comment :=
      match r.doc_comment with
      | some d => some d.asString
      | none => none
    name := r.name.asString
    fields := r.fields.map FieldRef.toOwned }

/-- `Service` (definition.rs lines 467-473). -/
structure Service : Type where
  doc_comment : Option String
  name : String
  extension : Option String
  functions : List Function
deriving Repr

/-- `From<ServiceRef> for Service` (definition.rs lines 475-487). -/
def ServiceRef.toOwned (r : ServiceRef) : Service :=
  { doc_comment :=
      match r.doc_comment with
      | some d => some d.asString
      | none => none
    name := r.name.asString
    extension := r.extension.map List.asString
    functions := r.functions.map FunctionRef.toOwned }

/-! ### Owned-form parse entry points: parse the view form and convert
(definition.rs lines 74-78, 138-142, 237-241, 300-304, 357-361, 414-418,
489-493). -/

def Const.parse (s : String) : Except Input (Input × Const) :=
  (ConstRef.parse s).map fun p => (p.1, p.2.toOwned)

def Typedef.parse (s : String) : Except Input (Input × Typedef) :=
  (TypedefRef.parse s).map fun p => (p.1, p.2.toOwned)

def Enum.parse (s : String) : Except Input (Input × Enum) :=
  (EnumRef.parse s).map fun p => (p.1, p.2.toOwned)

def Struct.parse (s : String) : Except Input (Input × Struct) :=
  (StructRef.parse s).map fun p => (p.1, p.2.toOwned)

def Union.parse (s : String) : Except Input (Input × Union) :=
  (UnionRef.parse s).map fun p => (p.1, p.2.toOwned)

def Exception.parse (s : String) : Except Input (Input × Exception) :=
  (ExceptionRef.parse s).map fun p => (p.1, p.2.toOwned)

def Service.parse (s : String) : Except Input (Input × Service) :=
  (ServiceRef.parse s).map fun p => (p.1, p.2.toOwned)

/-! ### Predicates used by the theorems -/

/-- Is the top-level variant of a field type a base type or a container
type (as opposed to a named-type reference)? -/
def isBaseOrContainer : FieldTypeRef → Bool
  | .ref _ => false
  | _ => true

/-- The doc-comment attachment shape: at `input` a comment parses (with
text `c`), immediately followed by a line break, then optional leading
horizontal space, then the construct keyword, with no other intervening
content. -/
def docPrefixOk (kw : List Char) (input : Input) (c : List Char) : Prop :=
  ∃ j1 j2 i3 sp,
    commentP input = .ok (j1, c) ∧
    linefeedP j1 = .ok (j2, ()) ∧
    popt spaceP j2 = .ok (i3, sp) ∧
    (tagP kw i3).isOk = true

/-! ### Separator runs: the whitespace/comment material the grammar allows
at separator-eligible positions.  A run is a sequence of tokens — a
horizontal-space run, a newline, a line comment, or a block comment —
whose concatenated text is exactly what `Separator` consumes. -/

inductive SepTok : Type where
  | hs (ws : List Char)
  | nl
  | crnl
  | lineSlash (b : List Char)
  | lineHash (b : List Char)
  | blockC (b : List Char)
deriving Repr, DecidableEq

/-- The source text of one separator token. -/
def SepTok.text : SepTok → List Char
  | .hs ws => ws
  | .nl => ['\n']
  | .crnl => ['\r', '\n']
  | .lineSlash b => '/' :: '/' :: b
  | .lineHash b => '#' :: b
  | .blockC b => '/' :: '*' :: (b ++ ('*' :: '/' :: []))

/-- The concatenated text of a separator run. -/
def gapText : List SepTok → List Char
  | [] => []
  | t :: ts => t.text ++ gapText ts

/-- Intrinsic well-formedness of one token: a space run is non-empty
horizontal space, a line comment body has no end-of-line characters, a
block comment body has no `*` (so the scan stops exactly at its own
terminator). -/
def SepTok.okB : SepTok → Bool
  | .hs ws => !ws.isEmpty && ws.all isHSpace
  | .nl => true
  | .crnl => true
  | .lineSlash b => b.all notEol
  | .lineHash b => b.all notEol
  | .blockC b => b.all (fun x => x != '*')

/-- The first character of a token's text. -/
def SepTok.headChar : SepTok → Char
  | .hs ws => ws.headD ' '
  | .nl => '\n'
  | .crnl => '\r'
  | .lineSlash _ => '/'
  | .lineHash _ => '#'
  | .blockC _ => '/'

/-- The character that follows a separator run: the head of the first
token, or the terminal character `c` after the run. -/
def gapHead : List SepTok → Char → Char
  | [], c => c
  | t :: _, _ => t.headChar

/-- Boundary condition between a token and the character after it: a
maximal space run must not be followed by more horizontal space, and a
line comment must be closed by an end-of-line character. -/
def afterOkB : SepTok → Char → Bool
  | .hs _, c => !(isHSpace c)
  | .lineSlash _, c => !(notEol c)
  | .lineHash _, c => !(notEol c)
  | _, _ => true

/-- A well-formed separator run before terminal character `c`: every
token intrinsically well formed and every boundary respected. -/
def gapOkB : List SepTok → Char → Bool
  | [], _ => true
  | t :: ts, c => t.okB && afterOkB t (gapHead ts c) && gapOkB ts c

/-! ### Template instances for the whitespace/comment-insensitivity
property: one instance per definition kind, with every separator-eligible
position of the instance quantified over an arbitrary separator run. -/

/-- `const` g1 `i32` g2 `N` g3 `=` g4 `5`. -/
def constSpaced (g1 g2 g3 g4 : List SepTok) : Input :=
  "const".toList ++ (gapText g1 ++ ('i' :: '3' :: '2' ::
    (gapText g2 ++ ('N' :: (gapText g3 ++ ('=' :: (gapText g4 ++ ('5' :: []))))))))

/-- `typedef` g1 `i32` g2 `MyI32`. -/
def typedefSpacedG (g1 g2 : List SepTok) : Input :=
  "typedef".toList ++ (gapText g1 ++ ('i' :: '3' :: '2' ::
    (gapText g2 ++ ('M' :: 'y' :: 'I' :: '3' :: '2' :: []))))

/-- `enum` g1 `E` g2 `{` g3 `A` g4 `,` g5 `B` g6 `}`. -/
def enumSpaced (g1 g2 g3 g4 g5 g6 : List SepTok) : Input :=
  "enum".toList ++ (gapText g1 ++ ('E' :: (gapText g2 ++ ('{' ::
    (gapText g3 ++ ('A' :: (gapText g4 ++ (',' :: (gapText g5 ++ ('B' ::
      (gapText g6 ++ ('}' :: []))))))))))))

/-- `kw` g1 `S` g2 `{` g3 `i32` g4 `a` g5 `}` — the shared shape of the
struct, union and exception instances. -/
def fieldsSpaced (kw : List Char) (g1 g2 g3 g4 g5 : List SepTok) : Input :=
  kw ++ (gapText g1 ++ ('S' :: (gapText g2 ++ ('{' :: (gapText g3 ++
    ('i' :: '3' :: '2' :: (gapText g4 ++ ('a' :: (gapText g5 ++ ('}' :: []))))))))))

/-- `service` g1 `Sv` g2 `extends` g3 `Base` g4 `{` g5 `}`. -/
def serviceSpaced (g1 g2 g3 g4 g5 : List SepTok) : Input :=
  "service".toList ++ (gapText g1 ++ ('S' :: 'v' :: (gapText g2 ++
    ('e' :: 'x' :: 't' :: 'e' :: 'n' :: 'd' :: 's' :: (gapText g3 ++
      ('B' :: 'a' :: 's' :: 'e' ::
        (gapText g4 ++ ('{' :: (gapText g5 ++ ('}' :: []))))))))))

/-! ### Stepping lemmas for the combinators -/

theorem pbind_step {α β : Type} {p : P α} {f : α → P β} {input i1 : Input} {a : α}
    (hp : p input = .ok (i1, a)) : pbind p f input = f a i1 := by
  unfold pbind; rw [hp]

theorem pbind_err {α β : Type} {p : P α} {f : α → P β} {input e : Input}
    (hp : p input = .error e) : pbind p f input = .error e := by
  unfold pbind; rw [hp]

theorem pmap_step {α β : Type} {f : α → β} {p : P α} {input i1 : Input} {a : α}
    (hp : p input = .ok (i1, a)) : pmap f p input = .ok (i1, f a) := by
  unfold pmap; rw [hp]

theorem pmap_err {α β : Type} {f : α → β} {p : P α} {input e : Input}
    (hp : p input = .error e) : pmap f p input = .error e := by
  unfold pmap; rw [hp]

theorem popt_step {α : Type} {p : P α} {input i1 : Input} {a : α}
    (hp : p input = .ok (i1, a)) : popt p input = .ok (i1, some a) := by
  unfold popt; rw [hp]

theorem popt_err {α : Type} {p : P α} {input e : Input}
    (hp : p input = .error e) : popt p input = .ok (input, none) := by
  unfold popt; rw [hp]

theorem palt_first {α : Type} {p q : P α} {input : Input} {r : Input × α}
    (hp : p input = .ok r) : palt p q input = .ok r := by
  unfold palt; rw [hp]

theorem palt_second {α : Type} {p q : P α} {input e : Input}
    (hp : p input = .error e) : palt p q input = q input := by
  unfold palt; rw [hp]

theorem pbind_ok {α β : Type} {p : P α} {f : α → P β} {input : Input} {r : Input × β}
    (h : pbind p f input = .ok r) : ∃ i1 a, p input = .ok (i1, a) ∧ f a i1 = .ok r := by
  unfold pbind at h
  cases hp : p input with
  | error e => rw [hp] at h; exact absurd h (by simp)
  | ok pr =>
    obtain ⟨i1, a⟩ := pr
    rw [hp] at h
    exact ⟨i1, a, rfl, h⟩

theorem pmap_ok {α β : Type} {p : P α} {f : α → β} {input i1 : Input} {b : β}
    (h : pmap f p input = .ok (i1, b)) : ∃ a, p input = .ok (i1, a) ∧ b = f a := by
  unfold pmap at h
  cases hp : p input with
  | error e => rw [hp] at h; exact absurd h (by simp)
  | ok pr =>
    obtain ⟨j, a⟩ := pr
    rw [hp] at h
    have h' : Except.ok (ε := Input) (j, f a) = .ok (i1, b) := h
    injection h' with h1
    injection h1 with hj hb
    refine ⟨a, ?_, hb.symm⟩
    rw [hj]

theorem palt_ok {α : Type} {p q : P α} {input : Input} {r : Input × α}
    (h : palt p q input = .ok r) : p input = .ok r ∨ q input = .ok r := by
  unfold palt at h
  cases hp : p input with
  | error e => rw [hp] at h; exact Or.inr h
  | ok pr =>
    rw [hp] at h
    have h' : Except.ok (ε := Input) pr = .ok r := h
    exact Or.inl h'

theorem popt_ok_some {α : Type} {p : P α} {input i1 : Input} {a : α}
    (h : popt p input = .ok (i1, some a)) : p input = .ok (i1, a) := by
  unfold popt at h
  cases hp : p input with
  | error e => rw [hp] at h; simp at h
  | ok pr =>
    obtain ⟨j, x⟩ := pr
    rw [hp] at h
    have h' : Except.ok (ε := Input) (j, some x) = .ok (i1, some a) := h
    injection h' with h1
    injection h1 with hj hx
    injection hx with hx'
    rw [hj, hx']

/-! ### Lexical run lemmas -/

theorem tagAux_append (s t : List Char) : tagAux s (s ++ t) = some t := by
  induction s with
  | nil => rfl
  | cons c s ih => simp [tagAux, ih]

theorem tagP_append (s t : List Char) : tagP s (s ++ t) = .ok (t, s) := by
  unfold tagP; rw [tagAux_append]

theorem spanWhile_append {p : Char → Bool} {ws : List Char} (hws : ∀ x ∈ ws, p x = true)
    {c : Char} (hc : p c = false) (rest : Input) :
    spanWhile p (ws ++ c :: rest) = (ws, c :: rest) := by
  induction ws with
  | nil => simp [spanWhile, hc]
  | cons w ws ih =>
    have hw : p w = true := hws w (by simp)
    have ih' := ih (fun x hx => hws x (by simp [hx]))
    simp [spanWhile, hw, ih']

theorem spaceP_run {ws : List Char} (h0 : ws ≠ []) (hws : ∀ x ∈ ws, isHSpace x = true)
    {c : Char} (hc : isHSpace c = false) (rest : Input) :
    spaceP (ws ++ c :: rest) = .ok (c :: rest, ws) := by
  have hne : ws.isEmpty = false := by
    cases ws with
    | nil => exact absurd rfl h0
    | cons w ws => rfl
  unfold spaceP
  rw [spanWhile_append hws hc]
  simp [hne]

theorem separatorP_run (fuel : Nat) {ws : List Char} (h0 : ws ≠ [])
    (hws : ∀ x ∈ ws, isHSpace x = true) {c : Char} {rest : Input}
    (hstop : sepUnitP (c :: rest) = .error (c :: rest)) (hc : isHSpace c = false) :
    separatorP fuel (ws ++ c :: rest) = .ok (c :: rest, ()) := by
  have hunit : sepUnitP (ws ++ c :: rest) = .ok (c :: rest, ()) := by
    unfold sepUnitP
    rw [palt_first (pmap_step (spaceP_run h0 hws hc rest))]
  unfold separatorP
  rw [hunit]
  cases fuel with
  | zero => rfl
  | succ n =>
    show separatorLoop (n + 1) (c :: rest) = .ok (c :: rest, ())
    unfold separatorLoop
    rw [hstop]

/-! ### Separator-run lemmas: `Separator` consumes exactly a well-formed
run of whitespace and comments, independent of the run's content. -/

theorem spanWhile_append2 {p : Char → Bool} {ws : List Char} (hws : ∀ x ∈ ws, p x = true)
    {tail : Input} (ht : ∀ c' r', tail = c' :: r' → p c' = false) :
    spanWhile p (ws ++ tail) = (ws, tail) := by
  induction ws with
  | nil =>
    show spanWhile p tail = ([], tail)
    cases tail with
    | nil => rfl
    | cons c r => simp [spanWhile, ht c r rfl]
  | cons w ws ih =>
    have hw := hws w (by simp)
    have ih' := ih (fun x hx => hws x (by simp [hx]))
    show spanWhile p (w :: (ws ++ tail)) = (w :: ws, tail)
    simp [spanWhile, hw, ih']

theorem spanWhile_stop {p : Char → Bool} {tail : Input}
    (ht : ∀ c' r', tail = c' :: r' → p c' = false) :
    spanWhile p tail = ([], tail) := by
  cases tail with
  | nil => rfl
  | cons c r => simp [spanWhile, ht c r rfl]

theorem identifierP_run2 {a : Char} (ha : isIdentStart a = true) {rest cont tail : Input}
    (hspan : spanWhile isIdentCont rest = (cont, tail)) :
    identifierP (a :: rest) = .ok (tail, a :: cont) := by
  show (if isIdentStart a = true then
      match spanWhile isIdentCont rest with
      | (tl, rest2) => Except.ok (rest2, a :: tl)
    else Except.error (a :: rest)) = .ok (tail, a :: cont)
  rw [if_pos ha, hspan]

theorem blockCommentEnd_clean :
    ∀ (b : List Char), (∀ x ∈ b, (x != '*') = true) →
    ∀ tail, blockCommentEnd (b ++ ('*' :: '/' :: tail)) = some (b, tail) := by
  intro b
  induction b with
  | nil => intro _ tail; rfl
  | cons a b ih =>
    intro hb tail
    have ha : ¬(a = '*') := by
      have := hb a (by simp)
      simpa using this
    have hb' : ∀ x ∈ b, (x != '*') = true := fun x hx => hb x (by simp [hx])
    show blockCommentEnd (a :: (b ++ ('*' :: '/' :: tail))) = some (a :: b, tail)
    unfold blockCommentEnd
    rw [if_neg ha, ih hb' tail]

theorem tokText_ne_nil {t : SepTok} (h : t.okB = true) : t.text ≠ [] := by
  cases t with
  | hs ws =>
    simp only [SepTok.okB, Bool.and_eq_true] at h
    cases ws with
    | nil => simp [List.isEmpty] at h
    | cons w ws => simp [SepTok.text]
  | nl => simp [SepTok.text]
  | crnl => simp [SepTok.text]
  | lineSlash b => simp [SepTok.text]
  | lineHash b => simp [SepTok.text]
  | blockC b => simp [SepTok.text]

theorem tokText_head (t : SepTok) (hok : t.okB = true) {tail : Input} {c' : Char}
    {r' : Input} (he : t.text ++ tail = c' :: r') : c' = t.headChar := by
  cases t with
  | hs ws =>
    cases ws with
    | nil => simp [SepTok.okB, List.isEmpty] at hok
    | cons w ws' =>
      have he' : w :: (ws' ++ tail) = c' :: r' := he
      injection he' with h1 _
      exact h1.symm
  | nl =>
    have he' : '\n' :: tail = c' :: r' := he
    injection he' with h1 _
    exact h1.symm
  | crnl =>
    have he' : '\r' :: ('\n' :: tail) = c' :: r' := he
    injection he' with h1 _
    exact h1.symm
  | lineSlash b =>
    have he' : '/' :: ('/' :: (b ++ tail)) = c' :: r' := he
    injection he' with h1 _
    exact h1.symm
  | lineHash b =>
    have he' : '#' :: (b ++ tail) = c' :: r' := he
    injection he' with h1 _
    exact h1.symm
  | blockC b =>
    have he' : '/' :: ('*' :: ((b ++ ('*' :: '/' :: [])) ++ tail)) = c' :: r' := he
    injection he' with h1 _
    exact h1.symm

theorem gapText_cons_head {ts : List SepTok} {c : Char} {rest : Input}
    (hok : gapOkB ts c = true) :
    ∀ c' r', gapText ts ++ (c :: rest) = c' :: r' → c' = gapHead ts c := by
  cases ts with
  | nil =>
    intro c' r' he
    have he' : c :: rest = c' :: r' := he
    injection he' with h1 _
    exact h1.symm
  | cons t ts' =>
    simp only [gapOkB, Bool.and_eq_true] at hok
    intro c' r' he
    have he2 : t.text ++ (gapText ts' ++ (c :: rest)) = c' :: r' := by
      rw [← List.append_assoc]
      exact he
    exact tokText_head t hok.1.1 he2

theorem gapHead_cases {ts : List SepTok} {c : Char} (hok : gapOkB ts c = true) :
    gapHead ts c = c ∨ gapHead ts c = ' ' ∨ gapHead ts c = '\t' ∨ gapHead ts c = '\n' ∨
    gapHead ts c = '\r' ∨ gapHead ts c = '/' ∨ gapHead ts c = '#' := by
  cases ts with
  | nil => exact Or.inl rfl
  | cons t ts' =>
    simp only [gapOkB, Bool.and_eq_true] at hok
    have htok := hok.1.1
    right
    cases t with
    | hs ws =>
      cases ws with
      | nil => simp [SepTok.okB, List.isEmpty] at htok
      | cons w ws' =>
        simp only [SepTok.okB, Bool.and_eq_true, List.all_eq_true] at htok
        have hw : isHSpace w = true := htok.2 w (by simp)
        have hw' : w = ' ' ∨ w = '\t' := by
          simpa [isHSpace] using hw
        rcases hw' with h | h
        · exact Or.inl (by simp [gapHead, SepTok.headChar, h])
        · exact Or.inr (Or.inl (by simp [gapHead, SepTok.headChar, h]))
    | nl => exact Or.inr (Or.inr (Or.inl rfl))
    | crnl => exact Or.inr (Or.inr (Or.inr (Or.inl rfl)))
    | lineSlash b => exact Or.inr (Or.inr (Or.inr (Or.inr (Or.inl rfl))))
    | lineHash b => exact Or.inr (Or.inr (Or.inr (Or.inr (Or.inr rfl))))
    | blockC b => exact Or.inr (Or.inr (Or.inr (Or.inr (Or.inl rfl))))

theorem gapText_head_false {p : Char → Bool} {ts : List SepTok} {c : Char} {rest : Input}
    (hok : gapOkB ts c = true)
    (hp : p ' ' = false ∧ p '\t' = false ∧ p '\n' = false ∧ p '\r' = false ∧
      p '/' = false ∧ p '#' = false)
    (hc : p c = false) :
    ∀ c' r', gapText ts ++ (c :: rest) = c' :: r' → p c' = false := by
  intro c' r' he
  rw [gapText_cons_head hok c' r' he]
  rcases gapHead_cases hok with h | h | h | h | h | h | h <;> rw [h]
  exacts [hc, hp.1, hp.2.1, hp.2.2.1, hp.2.2.2.1, hp.2.2.2.2.1, hp.2.2.2.2.2]

theorem gapHead_cases_cons {t : SepTok} {ts : List SepTok} {c : Char}
    (hok : gapOkB (t :: ts) c = true) :
    gapHead (t :: ts) c = ' ' ∨ gapHead (t :: ts) c = '\t' ∨ gapHead (t :: ts) c = '\n' ∨
    gapHead (t :: ts) c = '\r' ∨ gapHead (t :: ts) c = '/' ∨ gapHead (t :: ts) c = '#' := by
  simp only [gapOkB, Bool.and_eq_true] at hok
  have htok := hok.1.1
  cases t with
  | hs ws =>
    cases ws with
    | nil => simp [SepTok.okB, List.isEmpty] at htok
    | cons w ws' =>
      simp only [SepTok.okB, Bool.and_eq_true, List.all_eq_true] at htok
      have hw : isHSpace w = true := htok.2 w (by simp)
      have hw' : w = ' ' ∨ w = '\t' := by
        simpa [isHSpace] using hw
      rcases hw' with h | h
      · exact Or.inl (by simp [gapHead, SepTok.headChar, h])
      · exact Or.inr (Or.inl (by simp [gapHead, SepTok.headChar, h]))
  | nl => exact Or.inr (Or.inr (Or.inl rfl))
  | crnl => exact Or.inr (Or.inr (Or.inr (Or.inl rfl)))
  | lineSlash b => exact Or.inr (Or.inr (Or.inr (Or.inr (Or.inl rfl))))
  | lineHash b => exact Or.inr (Or.inr (Or.inr (Or.inr (Or.inr rfl))))
  | blockC b => exact Or.inr (Or.inr (Or.inr (Or.inr (Or.inl rfl))))

theorem gapText_head_false_cons {p : Char → Bool} {t : SepTok} {ts : List SepTok}
    {c : Char} {rest : Input} (hok : gapOkB (t :: ts) c = true)
    (hp : p ' ' = false ∧ p '\t' = false ∧ p '\n' = false ∧ p '\r' = false ∧
      p '/' = false ∧ p '#' = false) :
    ∀ c' r', gapText (t :: ts) ++ (c :: rest) = c' :: r' → p c' = false := by
  intro c' r' he
  rw [gapText_cons_head hok c' r' he]
  rcases gapHead_cases_cons hok with h | h | h | h | h | h <;> rw [h]
  exacts [hp.1, hp.2.1, hp.2.2.1, hp.2.2.2.1, hp.2.2.2.2.1, hp.2.2.2.2.2]

theorem sepUnitP_tok (t : SepTok) {tail : Input} (hok : t.okB = true)
    (hafter : ∀ c' r', tail = c' :: r' → afterOkB t c' = true) :
    sepUnitP (t.text ++ tail) = .ok (tail, ()) := by
  cases t with
  | hs ws =>
    simp only [SepTok.okB, Bool.and_eq_true, List.all_eq_true] at hok
    obtain ⟨hne, hall⟩ := hok
    have hne' : ws.isEmpty = false := by
      cases hi : ws.isEmpty
      · rfl
      · rw [hi] at hne; simp at hne
    have hspace : spaceP (ws ++ tail) = .ok (tail, ws) := by
      unfold spaceP
      rw [spanWhile_append2 hall (fun c' r' he => by
        have := hafter c' r' he
        simpa [afterOkB] using this)]
      simp [hne']
    unfold sepUnitP
    exact palt_first (pmap_step hspace)
  | nl => rfl
  | crnl => rfl
  | lineSlash b =>
    simp only [SepTok.okB, List.all_eq_true] at hok
    show sepUnitP ('/' :: ('/' :: (b ++ tail))) = .ok (tail, ())
    have hcmt : commentP ('/' :: ('/' :: (b ++ tail))) = .ok (tail, b) := by
      have hred : commentP ('/' :: ('/' :: (b ++ tail))) =
          (match spanWhile notEol (b ++ tail) with
            | (txt, rem) => Except.ok (rem, txt)) := rfl
      rw [hred, spanWhile_append2 hok (fun c' r' he => by
        have := hafter c' r' he
        simpa [afterOkB] using this)]
    unfold sepUnitP
    rw [palt_second (pmap_err (show spaceP ('/' :: ('/' :: (b ++ tail))) =
      .error ('/' :: ('/' :: (b ++ tail))) from rfl))]
    rw [palt_second (show linefeedP ('/' :: ('/' :: (b ++ tail))) =
      .error ('/' :: ('/' :: (b ++ tail))) from rfl)]
    exact pmap_step hcmt
  | lineHash b =>
    simp only [SepTok.okB, List.all_eq_true] at hok
    show sepUnitP ('#' :: (b ++ tail)) = .ok (tail, ())
    have hcmt : commentP ('#' :: (b ++ tail)) = .ok (tail, b) := by
      have hred : commentP ('#' :: (b ++ tail)) =
          (match spanWhile notEol (b ++ tail) with
            | (txt, rem) => Except.ok (rem, txt)) := rfl
      rw [hred, spanWhile_append2 hok (fun c' r' he => by
        have := hafter c' r' he
        simpa [afterOkB] using this)]
    unfold sepUnitP
    rw [palt_second (pmap_err (show spaceP ('#' :: (b ++ tail)) =
      .error ('#' :: (b ++ tail)) from rfl))]
    rw [palt_second (show linefeedP ('#' :: (b ++ tail)) =
      .error ('#' :: (b ++ tail)) from rfl)]
    exact pmap_step hcmt
  | blockC b =>
    simp only [SepTok.okB, List.all_eq_true] at hok
    show sepUnitP ('/' :: ('*' :: ((b ++ ('*' :: '/' :: [])) ++ tail))) = .ok (tail, ())
    rw [List.append_assoc]
    show sepUnitP ('/' :: ('*' :: (b ++ ('*' :: '/' :: tail)))) = .ok (tail, ())
    have hcmt : commentP ('/' :: ('*' :: (b ++ ('*' :: '/' :: tail)))) = .ok (tail, b) := by
      have hred : commentP ('/' :: ('*' :: (b ++ ('*' :: '/' :: tail)))) =
          (match blockCommentEnd (b ++ ('*' :: '/' :: tail)) with
            | some (txt, rem) => Except.ok (rem, txt)
            | none => Except.error ('/' :: ('*' :: (b ++ ('*' :: '/' :: tail))))) := rfl
      rw [hred, blockCommentEnd_clean b hok tail]
    unfold sepUnitP
    rw [palt_second (pmap_err (show spaceP ('/' :: ('*' :: (b ++ ('*' :: '/' :: tail)))) =
      .error ('/' :: ('*' :: (b ++ ('*' :: '/' :: tail)))) from rfl))]
    rw [palt_second (show linefeedP ('/' :: ('*' :: (b ++ ('*' :: '/' :: tail)))) =
      .error ('/' :: ('*' :: (b ++ ('*' :: '/' :: tail)))) from rfl)]
    exact pmap_step hcmt

theorem separatorP_fail {fuel : Nat} {c : Char} {rest : Input}
    (hstop : sepUnitP (c :: rest) = .error (c :: rest)) :
    separatorP fuel (c :: rest) = .error (c :: rest) := by
  unfold separatorP
  rw [hstop]

theorem separatorLoop_gap {c : Char} {rest : Input}
    (hstop : sepUnitP (c :: rest) = .error (c :: rest)) :
    ∀ (ts : List SepTok) (fuel : Nat), gapOkB ts c = true → ts.length ≤ fuel →
    separatorLoop fuel (gapText ts ++ (c :: rest)) = .ok (c :: rest, ()) := by
  intro ts
  induction ts with
  | nil =>
    intro fuel _ _
    show separatorLoop fuel (c :: rest) = .ok (c :: rest, ())
    cases fuel with
    | zero => rfl
    | succ n =>
      unfold separatorLoop
      rw [hstop]
  | cons t ts ih =>
    intro fuel hok hlen
    simp only [gapOkB, Bool.and_eq_true] at hok
    obtain ⟨⟨htok, hadj⟩, hts⟩ := hok
    cases fuel with
    | zero => exact absurd hlen (by simp)
    | succ n =>
      have hshape : gapText (t :: ts) ++ (c :: rest) = t.text ++ (gapText ts ++ (c :: rest)) := by
        show (t.text ++ gapText ts) ++ (c :: rest) = _
        rw [List.append_assoc]
      rw [hshape]
      unfold separatorLoop
      rw [sepUnitP_tok t htok (fun c' r' he => by
        rw [gapText_cons_head hts c' r' he]; exact hadj)]
      exact ih n hts (by
        simp only [List.length_cons] at hlen
        omega)

theorem separatorP_gap {c : Char} {rest : Input}
    (hstop : sepUnitP (c :: rest) = .error (c :: rest))
    (t : SepTok) (ts : List SepTok) (fuel : Nat)
    (hok : gapOkB (t :: ts) c = true) (hlen : ts.length ≤ fuel) :
    separatorP fuel (gapText (t :: ts) ++ (c :: rest)) = .ok (c :: rest, ()) := by
  have hok' := hok
  simp only [gapOkB, Bool.and_eq_true] at hok'
  obtain ⟨⟨htok, hadj⟩, hts⟩ := hok'
  have hshape : gapText (t :: ts) ++ (c :: rest) = t.text ++ (gapText ts ++ (c :: rest)) := by
    show (t.text ++ gapText ts) ++ (c :: rest) = _
    rw [List.append_assoc]
  rw [hshape]
  unfold separatorP
  rw [sepUnitP_tok t htok (fun c' r' he => by
    rw [gapText_cons_head hts c' r' he]; exact hadj)]
  exact separatorLoop_gap hstop ts fuel hts hlen

theorem pbind_sep_gap {β : Type} {k : P β} {c : Char} {rest : Input}
    (hstop : sepUnitP (c :: rest) = .error (c :: rest))
    (t : SepTok) (ts : List SepTok) (fuel : Nat)
    (hok : gapOkB (t :: ts) c = true) (hlen : ts.length ≤ fuel) :
    pbind (separatorP fuel) (fun _ => k) (gapText (t :: ts) ++ (c :: rest)) = k (c :: rest) := by
  rw [pbind_step (separatorP_gap hstop t ts fuel hok hlen)]

theorem pbind_popt_sep_gap {β : Type} {k : P β} {c : Char} {rest : Input}
    (hstop : sepUnitP (c :: rest) = .error (c :: rest))
    (ts : List SepTok) (fuel : Nat)
    (hok : gapOkB ts c = true) (hlen : ts.length ≤ fuel + 1) :
    pbind (popt (separatorP fuel)) (fun _ => k) (gapText ts ++ (c :: rest)) = k (c :: rest) := by
  cases ts with
  | nil =>
    show pbind (popt (separatorP fuel)) (fun _ => k) (c :: rest) = k (c :: rest)
    rw [pbind_step (popt_err (separatorP_fail hstop))]
  | cons t ts' =>
    rw [pbind_step (popt_step (separatorP_gap hstop t ts' fuel hok (by
      simp only [List.length_cons] at hlen
      omega)))]

theorem pmap_unit_popt_sep_gap {c : Char} {rest : Input}
    (hstop : sepUnitP (c :: rest) = .error (c :: rest))
    (ts : List SepTok) (fuel : Nat)
    (hok : gapOkB ts c = true) (hlen : ts.length ≤ fuel + 1) :
    pmap (fun _ => ()) (popt (separatorP fuel)) (gapText ts ++ (c :: rest)) =
      .ok (c :: rest, ()) := by
  cases ts with
  | nil =>
    show pmap (fun _ => ()) (popt (separatorP fuel)) (c :: rest) = .ok (c :: rest, ())
    rw [pmap_step (popt_err (separatorP_fail hstop))]
  | cons t ts' =>
    rw [pmap_step (popt_step (separatorP_gap hstop t ts' fuel hok (by
      simp only [List.length_cons] at hlen
      omega)))]

theorem self_ne_append {pre tail : Input} (h : pre ≠ []) : tail ≠ pre ++ tail := by
  intro he
  have hl := congrArg List.length he
  rw [List.length_append] at hl
  have hz : pre.length = 0 := by omega
  exact h (List.length_eq_zero.mp hz)

theorem gapText_cons_ne_nil {t : SepTok} {ts : List SepTok} (htok : t.okB = true) :
    gapText (t :: ts) ≠ [] := by
  show t.text ++ gapText ts ≠ []
  intro h
  exact tokText_ne_nil htok (List.append_eq_nil.mp h).1

theorem cons_mid_ne {gA gB : List SepTok} {x : Char} {tail : Input} :
    tail ≠ gapText gA ++ (x :: (gapText gB ++ tail)) := by
  intro heq
  have h2 : gapText gA ++ (x :: (gapText gB ++ tail)) =
      (gapText gA ++ (x :: gapText gB)) ++ tail := by
    simp [List.append_assoc]
  rw [h2] at heq
  exact absurd heq (self_ne_append (by simp))

theorem parseListSeparator_fail {fuel : Nat} {c : Char} {rest : Input}
    (hstop : sepUnitP (c :: rest) = .error (c :: rest))
    (hls : listSeparatorP (c :: rest) = .error (c :: rest)) :
    parseListSeparator fuel (c :: rest) = .error (c :: rest) := by
  unfold parseListSeparator
  have hb1 : pbind (popt (separatorP fuel)) (fun _ => pbind listSeparatorP
      (fun _ => pmap (fun _ => ()) (popt (separatorP fuel)))) (c :: rest) =
      .error (c :: rest) := by
    rw [pbind_step (popt_err (separatorP_fail hstop))]
    exact pbind_err hls
  rw [palt_second hb1]
  exact separatorP_fail hstop

theorem parseListSeparator_gap_only {c : Char} {rest : Input}
    (hstop : sepUnitP (c :: rest) = .error (c :: rest))
    (hls : listSeparatorP (c :: rest) = .error (c :: rest))
    (t : SepTok) (ts : List SepTok) (fuel : Nat)
    (hok : gapOkB (t :: ts) c = true) (hlen : ts.length ≤ fuel) :
    parseListSeparator fuel (gapText (t :: ts) ++ (c :: rest)) = .ok (c :: rest, ()) := by
  unfold parseListSeparator
  have hb1 : pbind (popt (separatorP fuel)) (fun _ => pbind listSeparatorP
      (fun _ => pmap (fun _ => ()) (popt (separatorP fuel))))
      (gapText (t :: ts) ++ (c :: rest)) = .error (c :: rest) := by
    rw [pbind_popt_sep_gap hstop (t :: ts) fuel hok (by
      simp only [List.length_cons]
      omega)]
    exact pbind_err hls
  rw [palt_second hb1]
  exact separatorP_gap hstop t ts fuel hok hlen

theorem parseListSeparator_comma_gap {d : Char} {q : Input}
    (hstop2 : sepUnitP (d :: q) = .error (d :: q))
    (gA gB : List SepTok) (fuel : Nat)
    (hokA : gapOkB gA ',' = true) (hokB : gapOkB gB d = true)
    (hlenA : gA.length ≤ fuel + 1) (hlenB : gB.length ≤ fuel + 1) :
    parseListSeparator fuel (gapText gA ++ (',' :: (gapText gB ++ (d :: q)))) =
      .ok (d :: q, ()) := by
  unfold parseListSeparator
  refine palt_first ?_
  rw [pbind_popt_sep_gap (show sepUnitP (',' :: (gapText gB ++ (d :: q))) =
    .error (',' :: (gapText gB ++ (d :: q))) from rfl) gA fuel hokA hlenA]
  rw [pbind_step (show listSeparatorP (',' :: (gapText gB ++ (d :: q))) =
    .ok (gapText gB ++ (d :: q), ()) from rfl)]
  exact pmap_unit_popt_sep_gap hstop2 gB fuel hokB hlenB

theorem pbind_popt_plsep_gap {β : Type} {k : P β} {c : Char} {rest : Input}
    (hstop : sepUnitP (c :: rest) = .error (c :: rest))
    (hls : listSeparatorP (c :: rest) = .error (c :: rest))
    (g : List SepTok) (fuel : Nat)
    (hok : gapOkB g c = true) (hlen : g.length ≤ fuel + 1) :
    pbind (popt (parseListSeparator fuel)) (fun _ => k) (gapText g ++ (c :: rest)) =
      k (c :: rest) := by
  cases g with
  | nil =>
    show pbind (popt (parseListSeparator fuel)) (fun _ => k) (c :: rest) = k (c :: rest)
    rw [pbind_step (popt_err (parseListSeparator_fail hstop hls))]
  | cons t g' =>
    rw [pbind_step (popt_step (parseListSeparator_gap_only hstop hls t g' fuel hok (by
      simp only [List.length_cons] at hlen
      omega)))]

theorem sepListLoop_sep_end {β : Type} {item : P β} {acc : List β} {g : List SepTok}
    {c : Char} {rest : Input} {fuel lfuel : Nat} {e : Input}
    (hok : gapOkB g c = true) (hlen : g.length ≤ fuel + 1)
    (hstop : sepUnitP (c :: rest) = .error (c :: rest))
    (hitem : item (c :: rest) = .error e) :
    sepListLoop (separatorP fuel) item lfuel acc (gapText g ++ (c :: rest)) =
      .ok (gapText g ++ (c :: rest), acc.reverse) := by
  cases g with
  | nil =>
    simp only [gapText, List.nil_append]
    cases lfuel with
    | zero => rfl
    | succ m =>
      unfold sepListLoop
      rw [separatorP_fail hstop]
  | cons t g' =>
    cases lfuel with
    | zero => rfl
    | succ m =>
      have hok' := hok
      simp only [gapOkB, Bool.and_eq_true] at hok'
      unfold sepListLoop
      rw [separatorP_gap hstop t g' fuel hok (by
        simp only [List.length_cons] at hlen
        omega)]
      simp only [if_neg (self_ne_append (gapText_cons_ne_nil hok'.1.1)), hitem]

theorem sepListLoop_plsep_end {β : Type} {item : P β} {acc : List β} {g : List SepTok}
    {c : Char} {rest : Input} {fuel lfuel : Nat} {e : Input}
    (hok : gapOkB g c = true) (hlen : g.length ≤ fuel + 1)
    (hstop : sepUnitP (c :: rest) = .error (c :: rest))
    (hls : listSeparatorP (c :: rest) = .error (c :: rest))
    (hitem : item (c :: rest) = .error e) :
    sepListLoop (parseListSeparator fuel) item lfuel acc (gapText g ++ (c :: rest)) =
      .ok (gapText g ++ (c :: rest), acc.reverse) := by
  cases g with
  | nil =>
    simp only [gapText, List.nil_append]
    cases lfuel with
    | zero => rfl
    | succ m =>
      unfold sepListLoop
      rw [parseListSeparator_fail hstop hls]
  | cons t g' =>
    cases lfuel with
    | zero => rfl
    | succ m =>
      have hok' := hok
      simp only [gapOkB, Bool.and_eq_true] at hok'
      unfold sepListLoop
      rw [parseListSeparator_gap_only hstop hls t g' fuel hok (by
        simp only [List.length_cons] at hlen
        omega)]
      simp only [if_neg (self_ne_append (gapText_cons_ne_nil hok'.1.1)), hitem]

theorem sepList0_start {α β : Type} {sep : P α} {item : P β} {fuel : Nat}
    {i i1 : Input} {b : β} (hitem : item i = .ok (i1, b)) :
    sepList0 sep item fuel i = sepListLoop sep item fuel [b] i1 := by
  unfold sepList0
  simp only [hitem]

theorem sepListLoop_step {α β : Type} {sep : P α} {item : P β} {m : Nat} {acc : List β}
    {i i1 i2 : Input} {a : α} {b : β}
    (hsep : sep i = .ok (i1, a)) (hne : ¬ i1 = i) (hitem : item i1 = .ok (i2, b)) :
    sepListLoop sep item (m + 1) acc i = sepListLoop sep item m (b :: acc) i2 := by
  conv_lhs => rw [sepListLoop]
  simp only [hsep, if_neg hne, hitem]

/-! ### Doc-comment attachment lemmas -/

theorem docBlockP_ok {input i1 : Input} {c : List Char}
    (h : docBlockP input = .ok (i1, c)) :
    ∃ j1 j2 sp, commentP input = .ok (j1, c) ∧ linefeedP j1 = .ok (j2, ()) ∧
      popt spaceP j2 = .ok (i1, sp) := by
  unfold docBlockP at h
  simp only [bind_eq, pure_eq] at h
  obtain ⟨j1, c', hc, h⟩ := pbind_ok h
  obtain ⟨j2, u, hlf, h⟩ := pbind_ok h
  obtain ⟨j3, sp, hsp, h⟩ := pbind_ok h
  unfold ppure at h
  have h' : Except.ok (ε := Input) (j3, c') = .ok (i1, c) := h
  injection h' with h1
  injection h1 with hj hc'
  rw [hj] at hsp
  rw [hc'] at hc
  exact ⟨j1, j2, sp, hc, hlf, hsp⟩

theorem doc_attach_of_header {kw : List Char} {input i1 : Input} {doc : Option (List Char)}
    (hdoc : docCommentP input = .ok (i1, doc)) (htag : (tagP kw i1).isOk = true) :
    doc = none ∨ ∃ c, doc = some c ∧ docPrefixOk kw input c := by
  cases doc with
  | none => exact Or.inl rfl
  | some c =>
    refine Or.inr ⟨c, rfl, ?_⟩
    obtain ⟨j1, j2, sp, h1, h2, h3⟩ := docBlockP_ok (popt_ok_some hdoc)
    exact ⟨j1, j2, i1, sp, h1, h2, h3, htag⟩

/-! ### Header extraction: every definition parser factors into the doc
block followed by its keyword-led body. -/

theorem constRefP_header {fuel : Nat} {input rest : Input} {node : ConstRef}
    (h : constRefP fuel input = .ok (rest, node)) :
    ∃ i1, docCommentP input = .ok (i1, node.doc_comment) ∧
      (tagP "const".toList i1).isOk = true := by
  unfold constRefP at h
  obtain ⟨i1, doc, hdoc, h2⟩ := pbind_ok h
  obtain ⟨b, hb, hnode⟩ := pmap_ok h2
  refine ⟨i1, by rw [hnode]; exact hdoc, ?_⟩
  unfold constBodyP at hb
  simp only [bind_eq] at hb
  obtain ⟨i2, tg, htag, _⟩ := pbind_ok hb
  rw [htag]; rfl

theorem typedefRefP_header {fuel : Nat} {input rest : Input} {node : TypedefRef}
    (h : typedefRefP fuel input = .ok (rest, node)) :
    ∃ i1, docCommentP input = .ok (i1, node.doc_comment) ∧
      (tagP "typedef".toList i1).isOk = true := by
  unfold typedefRefP at h
  obtain ⟨i1, doc, hdoc, h2⟩ := pbind_ok h
  obtain ⟨b, hb, hnode⟩ := pmap_ok h2
  refine ⟨i1, by rw [hnode]; exact hdoc, ?_⟩
  unfold typedefBodyP at hb
  simp only [bind_eq] at hb
  obtain ⟨i2, tg, htag, _⟩ := pbind_ok hb
  rw [htag]; rfl

theorem enumRefP_header {fuel : Nat} {input rest : Input} {node : EnumRef}
    (h : enumRefP fuel input = .ok (rest, node)) :
    ∃ i1, docCommentP input = .ok (i1, node.doc_comment) ∧
      (tagP "enum".toList i1).isOk = true := by
  unfold enumRefP at h
  obtain ⟨i1, doc, hdoc, h2⟩ := pbind_ok h
  obtain ⟨b, hb, hnode⟩ := pmap_ok h2
  refine ⟨i1, by rw [hnode]; exact hdoc, ?_⟩
  unfold enumBodyP at hb
  simp only [bind_eq] at hb
  obtain ⟨i2, tg, htag, _⟩ := pbind_ok hb
  rw [htag]; rfl

theorem fieldsBodyP_keyword {kw : List Char} {fuel : Nat} {input rest : Input}
    {b : List Char × List FieldRef} (hb : fieldsBodyP kw fuel input = .ok (rest, b)) :
    (tagP kw input).isOk = true := by
  unfold fieldsBodyP at hb
  simp only [bind_eq] at hb
  obtain ⟨i2, tg, htag, _⟩ := pbind_ok hb
  rw [htag]; rfl

theorem structRefP_header {fuel : Nat} {input rest : Input} {node : StructRef}
    (h : structRefP fuel input = .ok (rest, node)) :
    ∃ i1, docCommentP input = .ok (i1, node.doc_comment) ∧
      (tagP "struct".toList i1).isOk = true := by
  unfold structRefP at h
  obtain ⟨i1, doc, hdoc, h2⟩ := pbind_ok h
  obtain ⟨b, hb, hnode⟩ := pmap_ok h2
  exact ⟨i1, by rw [hnode]; exact hdoc, fieldsBodyP_keyword hb⟩

theorem unionRefP_header {fuel : Nat} {input rest : Input} {node : UnionRef}
    (h : unionRefP fuel input = .ok (rest, node)) :
    ∃ i1, docCommentP input = .ok (i1, node.doc_comment) ∧
      (tagP "union".toList i1).isOk = true := by
  unfold unionRefP at h
  obtain ⟨i1, doc, hdoc, h2⟩ := pbind_ok h
  obtain ⟨b, hb, hnode⟩ := pmap_ok h2
  exact ⟨i1, by rw [hnode]; exact hdoc, fieldsBodyP_keyword hb⟩

theorem exceptionRefP_header {fuel : Nat} {input rest : Input} {node : ExceptionRef}
    (h : exceptionRefP fuel input = .ok (rest, node)) :
    ∃ i1, docCommentP input = .ok (i1, node.doc_comment) ∧
      (tagP "exception".toList i1).isOk = true := by
  unfold exceptionRefP at h
  obtain ⟨i1, doc, hdoc, h2⟩ := pbind_ok h
  obtain ⟨b, hb, hnode⟩ := pmap_ok h2
  exact ⟨i1, by rw [hnode]; exact hdoc, fieldsBodyP_keyword hb⟩

theorem serviceRefP_header {fuel : Nat} {input rest : Input} {node : ServiceRef}
    (h : serviceRefP fuel input = .ok (rest, node)) :
    ∃ i1, docCommentP input = .ok (i1, node.doc_comment) ∧
      (tagP "service".toList i1).isOk = true := by
  unfold serviceRefP at h
  obtain ⟨i1, doc, hdoc, h2⟩ := pbind_ok h
  obtain ⟨b, hb, hnode⟩ := pmap_ok h2
  refine ⟨i1, by rw [hnode]; exact hdoc, ?_⟩
  unfold serviceBodyP at hb
  simp only [bind_eq] at hb
  obtain ⟨i2, tg, htag, _⟩ := pbind_ok hb
  rw [htag]; rfl

/-! ### Shape lemmas for the Typedef type restriction -/

theorem fieldTypeBaseP_shape {input i : Input} {t : FieldTypeRef}
    (h : fieldTypeBaseP input = .ok (i, t)) : isBaseOrContainer t = true := by
  unfold fieldTypeBaseP at h
  rcases palt_ok h with h | h
  · obtain ⟨a, _, ht⟩ := pmap_ok h; rw [ht]; rfl
  rcases palt_ok h with h | h
  · obtain ⟨a, _, ht⟩ := pmap_ok h; rw [ht]; rfl
  rcases palt_ok h with h | h
  · obtain ⟨a, _, ht⟩ := pmap_ok h; rw [ht]; rfl
  rcases palt_ok h with h | h
  · obtain ⟨a, _, ht⟩ := pmap_ok h; rw [ht]; rfl
  rcases palt_ok h with h | h
  · obtain ⟨a, _, ht⟩ := pmap_ok h; rw [ht]; rfl
  rcases palt_ok h with h | h
  · obtain ⟨a, _, ht⟩ := pmap_ok h; rw [ht]; rfl
  rcases palt_ok h with h | h
  · obtain ⟨a, _, ht⟩ := pmap_ok h; rw [ht]; rfl
  rcases palt_ok h with h | h
  · obtain ⟨a, _, ht⟩ := pmap_ok h; rw [ht]; rfl
  · obtain ⟨a, _, ht⟩ := pmap_ok h; rw [ht]; rfl

theorem containerTypeP_shape {sf : Nat} {inner : P FieldTypeRef} {input i : Input}
    {t : FieldTypeRef} (h : containerTypeP sf inner input = .ok (i, t)) :
    isBaseOrContainer t = true := by
  unfold containerTypeP at h
  rcases palt_ok h with h | h
  · unfold listTypeP at h; obtain ⟨a, _, ht⟩ := pmap_ok h; rw [ht]; rfl
  rcases palt_ok h with h | h
  · unfold setTypeP at h; obtain ⟨a, _, ht⟩ := pmap_ok h; rw [ht]; rfl
  · unfold mapTypeP at h; obtain ⟨a, _, ht⟩ := pmap_ok h; rw [ht]; rfl

theorem typedefOldP_shape {fuel : Nat} {input i : Input} {t : FieldTypeRef}
    (h : typedefOldP fuel input = .ok (i, t)) : isBaseOrContainer t = true := by
  cases fuel with
  | zero => simp [typedefOldP] at h
  | succ n =>
    unfold typedefOldP at h
    rcases palt_ok h with h | h
    · exact fieldTypeBaseP_shape h
    · exact containerTypeP_shape h

theorem typedefRefP_old {fuel : Nat} {input rest : Input} {node : TypedefRef}
    (h : typedefRefP fuel input = .ok (rest, node)) : isBaseOrContainer node.old = true := by
  unfold typedefRefP at h
  obtain ⟨i1, doc, hdoc, h2⟩ := pbind_ok h
  obtain ⟨b, hb, hnode⟩ := pmap_ok h2
  unfold typedefBodyP at hb
  simp only [bind_eq, pure_eq] at hb
  obtain ⟨i2, tg, htag, hb⟩ := pbind_ok hb
  obtain ⟨i3, u1, hs1, hb⟩ := pbind_ok hb
  obtain ⟨i4, old, hold, hb⟩ := pbind_ok hb
  obtain ⟨i5, u2, hs2, hb⟩ := pbind_ok hb
  obtain ⟨i6, al, hal, hb⟩ := pbind_ok hb
  unfold ppure at hb
  have hb' : Except.ok (ε := Input) (i6, (old, al)) = .ok (rest, b) := hb
  injection hb' with h1
  injection h1 with hi hval
  rw [hnode, ← hval]
  exact typedefOldP_shape hold

/-! ### Conversion list lemmas -/

theorem cvListToOwned_eq_map (xs : List ConstValueRef) :
    cvListToOwned xs = xs.map ConstValueRef.toOwned := by
  induction xs with
  | nil => rfl
  | cons x xs ih => simp [cvListToOwned, ih]

theorem cvPairsToOwned_eq_map (xs : List (ConstValueRef × ConstValueRef)) :
    cvPairsToOwned xs = xs.map (fun p => (p.1.toOwned, p.2.toOwned)) := by
  induction xs with
  | nil => rfl
  | cons x xs ih => obtain ⟨a, b⟩ := x; simp [cvPairsToOwned, ih]

/-! ### Whitespace/comment insensitivity of the template instances: every
separator-eligible position carries an arbitrary well-formed run of
whitespace and comments and the parsed node does not change. -/

theorem typedefRefP_gap (n : Nat) (g1 g2 : List SepTok)
    (h1 : g1 ≠ []) (h2 : g2 ≠ [])
    (hok1 : gapOkB g1 'i' = true) (hok2 : gapOkB g2 'M' = true)
    (hlen1 : g1.length ≤ n) (hlen2 : g2.length ≤ n) :
    typedefRefP (n + 1) (typedefSpacedG g1 g2) =
      .ok ([], ⟨none, .i32, ['M', 'y', 'I', '3', '2']⟩) := by
  obtain ⟨t1, ts1, rfl⟩ : ∃ t ts, g1 = t :: ts := by
    cases g1 with
    | nil => exact absurd rfl h1
    | cons t ts => exact ⟨t, ts, rfl⟩
  obtain ⟨t2, ts2, rfl⟩ : ∃ t ts, g2 = t :: ts := by
    cases g2 with
    | nil => exact absurd rfl h2
    | cons t ts => exact ⟨t, ts, rfl⟩
  have hbody : typedefBodyP (n + 1) (typedefSpacedG (t1 :: ts1) (t2 :: ts2)) =
      .ok ([], (FieldTypeRef.i32, ['M', 'y', 'I', '3', '2'])) := by
    unfold typedefBodyP typedefSpacedG
    simp only [bind_eq, pure_eq]
    rw [pbind_step (tagP_append "typedef".toList _)]
    rw [pbind_sep_gap (c := 'i') rfl t1 ts1 (n + 1) hok1 (by
      simp only [List.length_cons] at hlen1
      omega)]
    rw [pbind_step (show typedefOldP (n + 1) ('i' :: '3' :: '2' ::
      (gapText (t2 :: ts2) ++ ('M' :: 'y' :: 'I' :: '3' :: '2' :: []))) =
      .ok (gapText (t2 :: ts2) ++ ('M' :: 'y' :: 'I' :: '3' :: '2' :: []),
        FieldTypeRef.i32) from rfl)]
    rw [pbind_sep_gap (c := 'M') rfl t2 ts2 (n + 1) hok2 (by
      simp only [List.length_cons] at hlen2
      omega)]
    rw [pbind_step (show identifierP ('M' :: 'y' :: 'I' :: '3' :: '2' :: []) =
      .ok ([], 'M' :: 'y' :: 'I' :: '3' :: '2' :: []) from rfl)]
    rfl
  unfold typedefRefP
  rw [pbind_step (show docCommentP (typedefSpacedG (t1 :: ts1) (t2 :: ts2)) =
    .ok (typedefSpacedG (t1 :: ts1) (t2 :: ts2), none) from rfl)]
  rw [pmap_step hbody]

theorem constRefP_gap (n : Nat) (g1 g2 g3 g4 : List SepTok)
    (h1 : g1 ≠ []) (h2 : g2 ≠ [])
    (hok1 : gapOkB g1 'i' = true) (hok2 : gapOkB g2 'N' = true)
    (hok3 : gapOkB g3 '=' = true) (hok4 : gapOkB g4 '5' = true)
    (hlen1 : g1.length ≤ n) (hlen2 : g2.length ≤ n)
    (hlen3 : g3.length ≤ n) (hlen4 : g4.length ≤ n) :
    constRefP (n + 1) (constSpaced g1 g2 g3 g4) =
      .ok ([], ⟨none, ['N'], .i32, .int 5⟩) := by
  obtain ⟨t1, ts1, rfl⟩ : ∃ t ts, g1 = t :: ts := by
    cases g1 with
    | nil => exact absurd rfl h1
    | cons t ts => exact ⟨t, ts, rfl⟩
  obtain ⟨t2, ts2, rfl⟩ : ∃ t ts, g2 = t :: ts := by
    cases g2 with
    | nil => exact absurd rfl h2
    | cons t ts => exact ⟨t, ts, rfl⟩
  have hbody : constBodyP (n + 1) (constSpaced (t1 :: ts1) (t2 :: ts2) g3 g4) =
      .ok ([], (FieldTypeRef.i32, ['N'], ConstValueRef.int 5)) := by
    unfold constBodyP constSpaced
    simp only [bind_eq, pure_eq]
    rw [pbind_step (tagP_append "const".toList _)]
    rw [pbind_sep_gap (c := 'i') rfl t1 ts1 (n + 1) hok1 (by
      simp only [List.length_cons] at hlen1
      omega)]
    rw [pbind_step (show fieldTypeP (n + 1) ('i' :: '3' :: '2' ::
      (gapText (t2 :: ts2) ++ ('N' :: (gapText g3 ++ ('=' :: (gapText g4 ++ ('5' :: []))))))) =
      .ok (gapText (t2 :: ts2) ++ ('N' :: (gapText g3 ++ ('=' :: (gapText g4 ++ ('5' :: []))))),
        FieldTypeRef.i32) from rfl)]
    rw [pbind_sep_gap (c := 'N') rfl t2 ts2 (n + 1) hok2 (by
      simp only [List.length_cons] at hlen2
      omega)]
    rw [pbind_step (identifierP_run2 (by decide)
      (spanWhile_stop (gapText_head_false hok3 (by decide) (by decide))))]
    rw [pbind_popt_sep_gap (c := '=') rfl g3 (n + 1) hok3 (by omega)]
    rw [pbind_step (show charP '=' ('=' :: (gapText g4 ++ ('5' :: []))) =
      .ok (gapText g4 ++ ('5' :: []), '=') from rfl)]
    rw [pbind_popt_sep_gap (c := '5') rfl g4 (n + 1) hok4 (by omega)]
    rw [pbind_step (show constValueP (n + 1) ('5' :: []) =
      .ok ([], ConstValueRef.int 5) from rfl)]
    rw [pbind_step (popt_err (show pbind (popt (separatorP (n + 1)))
      (fun _ => listSeparatorP) ([] : Input) = .error [] from rfl))]
    rfl
  unfold constRefP
  rw [pbind_step (show docCommentP (constSpaced (t1 :: ts1) (t2 :: ts2) g3 g4) =
    .ok (constSpaced (t1 :: ts1) (t2 :: ts2) g3 g4, none) from rfl)]
  rw [pmap_step hbody]

theorem fieldP_gap (n : Nat) (g4 g5 : List SepTok) (h4 : g4 ≠ [])
    (hok4 : gapOkB g4 'a' = true) (hok5 : gapOkB g5 '}' = true)
    (hlen4 : g4.length ≤ n) (hlen5 : g5.length ≤ n) :
    fieldP (n + 1) ('i' :: '3' :: '2' ::
        (gapText g4 ++ ('a' :: (gapText g5 ++ ('}' :: []))))) =
      .ok (gapText g5 ++ ('}' :: []), ⟨none, none, .i32, ['a'], none⟩) := by
  obtain ⟨t4, ts4, rfl⟩ : ∃ t ts, g4 = t :: ts := by
    cases g4 with
    | nil => exact absurd rfl h4
    | cons t ts => exact ⟨t, ts, rfl⟩
  unfold fieldP
  simp only [bind_eq, pure_eq]
  rw [pbind_step (popt_err (pbind_err (show intConstantP ('i' :: '3' :: '2' ::
    (gapText (t4 :: ts4) ++ ('a' :: (gapText g5 ++ ('}' :: []))))) =
    .error ('i' :: '3' :: '2' ::
      (gapText (t4 :: ts4) ++ ('a' :: (gapText g5 ++ ('}' :: []))))) from rfl)))]
  rw [pbind_step (popt_err (pbind_err (show palt
    (pmap (fun _ => true) (tagP "required".toList))
    (pmap (fun _ => false) (tagP "optional".toList)) ('i' :: '3' :: '2' ::
    (gapText (t4 :: ts4) ++ ('a' :: (gapText g5 ++ ('}' :: []))))) =
    .error ('i' :: '3' :: '2' ::
      (gapText (t4 :: ts4) ++ ('a' :: (gapText g5 ++ ('}' :: []))))) from rfl)))]
  rw [pbind_step (show fieldTypeP (n + 1) ('i' :: '3' :: '2' ::
    (gapText (t4 :: ts4) ++ ('a' :: (gapText g5 ++ ('}' :: []))))) =
    .ok (gapText (t4 :: ts4) ++ ('a' :: (gapText g5 ++ ('}' :: []))),
      FieldTypeRef.i32) from rfl)]
  rw [pbind_sep_gap (c := 'a') rfl t4 ts4 (n + 1) hok4 (by
    simp only [List.length_cons] at hlen4
    omega)]
  rw [pbind_step (identifierP_run2 (by decide)
    (spanWhile_stop (gapText_head_false hok5 (by decide) (by decide))))]
  rw [pbind_step (popt_err (show pbind (popt (separatorP (n + 1)))
    (fun _ => pbind (charP '=')
      (fun _ => pbind (popt (separatorP (n + 1))) (fun _ => constValueP (n + 1))))
    (gapText g5 ++ ('}' :: [])) = .error ('}' :: []) from by
      rw [pbind_popt_sep_gap (c := '}') rfl g5 (n + 1) hok5 (by omega)]
      exact pbind_err rfl))]
  rw [pbind_step (popt_err (show pbind (popt (separatorP (n + 1)))
    (fun _ => listSeparatorP) (gapText g5 ++ ('}' :: [])) = .error ('}' :: []) from by
      rw [pbind_popt_sep_gap (c := '}') rfl g5 (n + 1) hok5 (by omega)]
      rfl))]
  rfl

theorem fieldsBodyP_gap (kw : List Char) (n : Nat) (g1 g2 g3 g4 g5 : List SepTok)
    (h1 : g1 ≠ []) (h4 : g4 ≠ [])
    (hok1 : gapOkB g1 'S' = true) (hok2 : gapOkB g2 '{' = true)
    (hok3 : gapOkB g3 'i' = true) (hok4 : gapOkB g4 'a' = true)
    (hok5 : gapOkB g5 '}' = true)
    (hlen1 : g1.length ≤ n) (hlen2 : g2.length ≤ n) (hlen3 : g3.length ≤ n)
    (hlen4 : g4.length ≤ n) (hlen5 : g5.length ≤ n) :
    fieldsBodyP kw (n + 1) (fieldsSpaced kw g1 g2 g3 g4 g5) =
      .ok ([], (['S'], [⟨none, none, .i32, ['a'], none⟩])) := by
  obtain ⟨t1, ts1, rfl⟩ : ∃ t ts, g1 = t :: ts := by
    cases g1 with
    | nil => exact absurd rfl h1
    | cons t ts => exact ⟨t, ts, rfl⟩
  unfold fieldsBodyP fieldsSpaced
  simp only [bind_eq, pure_eq]
  rw [pbind_step (tagP_append kw _)]
  rw [pbind_sep_gap (c := 'S') rfl t1 ts1 (n + 1) hok1 (by
    simp only [List.length_cons] at hlen1
    omega)]
  rw [pbind_step (identifierP_run2 (by decide)
    (spanWhile_stop (gapText_head_false hok2 (by decide) (by decide))))]
  rw [pbind_popt_sep_gap (c := '{') rfl g2 (n + 1) hok2 (by omega)]
  rw [pbind_step (show charP '{' ('{' :: (gapText g3 ++ ('i' :: '3' :: '2' ::
    (gapText g4 ++ ('a' :: (gapText g5 ++ ('}' :: []))))))) =
    .ok (gapText g3 ++ ('i' :: '3' :: '2' ::
      (gapText g4 ++ ('a' :: (gapText g5 ++ ('}' :: []))))), '{') from rfl)]
  rw [pbind_popt_sep_gap (c := 'i') rfl g3 (n + 1) hok3 (by omega)]
  have hlist : sepList0 (separatorP (n + 1)) (fieldP (n + 1)) (n + 1)
      ('i' :: '3' :: '2' :: (gapText g4 ++ ('a' :: (gapText g5 ++ ('}' :: []))))) =
      .ok (gapText g5 ++ ('}' :: []), [⟨none, none, .i32, ['a'], none⟩]) := by
    unfold sepList0
    rw [fieldP_gap n g4 g5 h4 hok4 hok5 hlen4 hlen5]
    exact sepListLoop_sep_end hok5 (by omega) rfl rfl
  rw [pbind_step hlist]
  rw [pbind_popt_sep_gap (c := '}') rfl g5 (n + 1) hok5 (by omega)]
  rw [pbind_step (show charP '}' ('}' :: ([] : Input)) = .ok ([], '}') from rfl)]
  rfl

theorem structRefP_gap (n : Nat) (g1 g2 g3 g4 g5 : List SepTok)
    (h1 : g1 ≠ []) (h4 : g4 ≠ [])
    (hok1 : gapOkB g1 'S' = true) (hok2 : gapOkB g2 '{' = true)
    (hok3 : gapOkB g3 'i' = true) (hok4 : gapOkB g4 'a' = true)
    (hok5 : gapOkB g5 '}' = true)
    (hlen1 : g1.length ≤ n) (hlen2 : g2.length ≤ n) (hlen3 : g3.length ≤ n)
    (hlen4 : g4.length ≤ n) (hlen5 : g5.length ≤ n) :
    structRefP (n + 1) (fieldsSpaced "struct".toList g1 g2 g3 g4 g5) =
      .ok ([], ⟨none, ['S'], [⟨none, none, .i32, ['a'], none⟩]⟩) := by
  unfold structRefP
  rw [pbind_step (show docCommentP (fieldsSpaced "struct".toList g1 g2 g3 g4 g5) =
    .ok (fieldsSpaced "struct".toList g1 g2 g3 g4 g5, none) from rfl)]
  rw [pmap_step (fieldsBodyP_gap "struct".toList n g1 g2 g3 g4 g5 h1 h4
    hok1 hok2 hok3 hok4 hok5 hlen1 hlen2 hlen3 hlen4 hlen5)]

theorem unionRefP_gap (n : Nat) (g1 g2 g3 g4 g5 : List SepTok)
    (h1 : g1 ≠ []) (h4 : g4 ≠ [])
    (hok1 : gapOkB g1 'S' = true) (hok2 : gapOkB g2 '{' = true)
    (hok3 : gapOkB g3 'i' = true) (hok4 : gapOkB g4 'a' = true)
    (hok5 : gapOkB g5 '}' = true)
    (hlen1 : g1.length ≤ n) (hlen2 : g2.length ≤ n) (hlen3 : g3.length ≤ n)
    (hlen4 : g4.length ≤ n) (hlen5 : g5.length ≤ n) :
    unionRefP (n + 1) (fieldsSpaced "union".toList g1 g2 g3 g4 g5) =
      .ok ([], ⟨none, ['S'], [⟨none, none, .i32, ['a'], none⟩]⟩) := by
  unfold unionRefP
  rw [pbind_step (show docCommentP (fieldsSpaced "union".toList g1 g2 g3 g4 g5) =
    .ok (fieldsSpaced "union".toList g1 g2 g3 g4 g5, none) from rfl)]
  rw [pmap_step (fieldsBodyP_gap "union".toList n g1 g2 g3 g4 g5 h1 h4
    hok1 hok2 hok3 hok4 hok5 hlen1 hlen2 hlen3 hlen4 hlen5)]

theorem exceptionRefP_gap (n : Nat) (g1 g2 g3 g4 g5 : List SepTok)
    (h1 : g1 ≠ []) (h4 : g4 ≠ [])
    (hok1 : gapOkB g1 'S' = true) (hok2 : gapOkB g2 '{' = true)
    (hok3 : gapOkB g3 'i' = true) (hok4 : gapOkB g4 'a' = true)
    (hok5 : gapOkB g5 '}' = true)
    (hlen1 : g1.length ≤ n) (hlen2 : g2.length ≤ n) (hlen3 : g3.length ≤ n)
    (hlen4 : g4.length ≤ n) (hlen5 : g5.length ≤ n) :
    exceptionRefP (n + 1) (fieldsSpaced "exception".toList g1 g2 g3 g4 g5) =
      .ok ([], ⟨none, ['S'], [⟨none, none, .i32, ['a'], none⟩]⟩) := by
  unfold exceptionRefP
  rw [pbind_step (show docCommentP (fieldsSpaced "exception".toList g1 g2 g3 g4 g5) =
    .ok (fieldsSpaced "exception".toList g1 g2 g3 g4 g5, none) from rfl)]
  rw [pmap_step (fieldsBodyP_gap "exception".toList n g1 g2 g3 g4 g5 h1 h4
    hok1 hok2 hok3 hok4 hok5 hlen1 hlen2 hlen3 hlen4 hlen5)]

theorem serviceRefP_gap (n : Nat) (g1 g2 g3 g4 g5 : List SepTok)
    (h1 : g1 ≠ []) (h2 : g2 ≠ []) (h3 : g3 ≠ [])
    (hok1 : gapOkB g1 'S' = true) (hok2 : gapOkB g2 'e' = true)
    (hok3 : gapOkB g3 'B' = true) (hok4 : gapOkB g4 '{' = true)
    (hok5 : gapOkB g5 '}' = true)
    (hlen1 : g1.length ≤ n) (hlen2 : g2.length ≤ n) (hlen3 : g3.length ≤ n)
    (hlen4 : g4.length ≤ n) (hlen5 : g5.length ≤ n) :
    serviceRefP (n + 1) (serviceSpaced g1 g2 g3 g4 g5) =
      .ok ([], ⟨none, ['S', 'v'], some ['B', 'a', 's', 'e'], []⟩) := by
  obtain ⟨t1, ts1, rfl⟩ : ∃ t ts, g1 = t :: ts := by
    cases g1 with
    | nil => exact absurd rfl h1
    | cons t ts => exact ⟨t, ts, rfl⟩
  obtain ⟨t2, ts2, rfl⟩ : ∃ t ts, g2 = t :: ts := by
    cases g2 with
    | nil => exact absurd rfl h2
    | cons t ts => exact ⟨t, ts, rfl⟩
  obtain ⟨t3, ts3, rfl⟩ : ∃ t ts, g3 = t :: ts := by
    cases g3 with
    | nil => exact absurd rfl h3
    | cons t ts => exact ⟨t, ts, rfl⟩
  have hext : pbind (tagP "extends".toList) (fun _ => pbind (separatorP (n + 1)) (fun _ =>
      pbind identifierP (fun e => pbind (popt (separatorP (n + 1))) (fun _ => ppure e))))
      ('e' :: 'x' :: 't' :: 'e' :: 'n' :: 'd' :: 's' ::
        (gapText (t3 :: ts3) ++ ('B' :: 'a' :: 's' :: 'e' ::
          (gapText g4 ++ ('{' :: (gapText g5 ++ ('}' :: []))))))) =
      .ok ('{' :: (gapText g5 ++ ('}' :: [])), ['B', 'a', 's', 'e']) := by
    rw [pbind_step (show tagP "extends".toList
      ('e' :: 'x' :: 't' :: 'e' :: 'n' :: 'd' :: 's' ::
        (gapText (t3 :: ts3) ++ ('B' :: 'a' :: 's' :: 'e' ::
          (gapText g4 ++ ('{' :: (gapText g5 ++ ('}' :: []))))))) =
      .ok (gapText (t3 :: ts3) ++ ('B' :: 'a' :: 's' :: 'e' ::
        (gapText g4 ++ ('{' :: (gapText g5 ++ ('}' :: []))))),
        "extends".toList) from rfl)]
    rw [pbind_sep_gap (c := 'B') rfl t3 ts3 (n + 1) hok3 (by
      simp only [List.length_cons] at hlen3
      omega)]
    have hT4 : spanWhile isIdentCont (gapText g4 ++ ('{' :: (gapText g5 ++ ('}' :: [])))) =
        ([], gapText g4 ++ ('{' :: (gapText g5 ++ ('}' :: [])))) :=
      spanWhile_stop (gapText_head_false hok4 (by decide) (by decide))
    have hspanB : spanWhile isIdentCont ('a' :: 's' :: 'e' ::
        (gapText g4 ++ ('{' :: (gapText g5 ++ ('}' :: []))))) =
        (['a', 's', 'e'], gapText g4 ++ ('{' :: (gapText g5 ++ ('}' :: [])))) := by
      rw [show spanWhile isIdentCont ('a' :: 's' :: 'e' ::
        (gapText g4 ++ ('{' :: (gapText g5 ++ ('}' :: []))))) =
        (match spanWhile isIdentCont (gapText g4 ++ ('{' :: (gapText g5 ++ ('}' :: [])))) with
          | (x, y) => ('a' :: 's' :: 'e' :: x, y)) from rfl, hT4]
    rw [pbind_step (identifierP_run2 (by decide) hspanB)]
    rw [pbind_popt_sep_gap (c := '{') rfl g4 (n + 1) hok4 (by omega)]
    rfl
  have hbody : serviceBodyP (n + 1) (serviceSpaced (t1 :: ts1) (t2 :: ts2) (t3 :: ts3) g4 g5) =
      .ok ([], (['S', 'v'], some ['B', 'a', 's', 'e'], [])) := by
    unfold serviceBodyP serviceSpaced
    simp only [bind_eq, pure_eq]
    rw [pbind_step (tagP_append "service".toList _)]
    rw [pbind_sep_gap (c := 'S') rfl t1 ts1 (n + 1) hok1 (by
      simp only [List.length_cons] at hlen1
      omega)]
    have hT2 : spanWhile isIdentCont (gapText (t2 :: ts2) ++
        ('e' :: 'x' :: 't' :: 'e' :: 'n' :: 'd' :: 's' ::
          (gapText (t3 :: ts3) ++ ('B' :: 'a' :: 's' :: 'e' ::
            (gapText g4 ++ ('{' :: (gapText g5 ++ ('}' :: [])))))))) =
        ([], gapText (t2 :: ts2) ++
          ('e' :: 'x' :: 't' :: 'e' :: 'n' :: 'd' :: 's' ::
            (gapText (t3 :: ts3) ++ ('B' :: 'a' :: 's' :: 'e' ::
              (gapText g4 ++ ('{' :: (gapText g5 ++ ('}' :: [])))))))) :=
      spanWhile_stop (gapText_head_false_cons hok2 (by decide))
    have hspanSv : spanWhile isIdentCont ('v' :: (gapText (t2 :: ts2) ++
        ('e' :: 'x' :: 't' :: 'e' :: 'n' :: 'd' :: 's' ::
          (gapText (t3 :: ts3) ++ ('B' :: 'a' :: 's' :: 'e' ::
            (gapText g4 ++ ('{' :: (gapText g5 ++ ('}' :: []))))))))) =
        (['v'], gapText (t2 :: ts2) ++
          ('e' :: 'x' :: 't' :: 'e' :: 'n' :: 'd' :: 's' ::
            (gapText (t3 :: ts3) ++ ('B' :: 'a' :: 's' :: 'e' ::
              (gapText g4 ++ ('{' :: (gapText g5 ++ ('}' :: [])))))))) := by
      rw [show spanWhile isIdentCont ('v' :: (gapText (t2 :: ts2) ++
        ('e' :: 'x' :: 't' :: 'e' :: 'n' :: 'd' :: 's' ::
          (gapText (t3 :: ts3) ++ ('B' :: 'a' :: 's' :: 'e' ::
            (gapText g4 ++ ('{' :: (gapText g5 ++ ('}' :: []))))))))) =
        (match spanWhile isIdentCont (gapText (t2 :: ts2) ++
          ('e' :: 'x' :: 't' :: 'e' :: 'n' :: 'd' :: 's' ::
            (gapText (t3 :: ts3) ++ ('B' :: 'a' :: 's' :: 'e' ::
              (gapText g4 ++ ('{' :: (gapText g5 ++ ('}' :: [])))))))) with
          | (x, y) => ('v' :: x, y)) from rfl, hT2]
    rw [pbind_step (identifierP_run2 (by decide) hspanSv)]
    rw [pbind_popt_sep_gap (c := 'e') rfl (t2 :: ts2) (n + 1) hok2 (by
      simp only [List.length_cons] at hlen2 ⊢
      omega)]
    rw [pbind_step (popt_step hext)]
    rw [pbind_step (show charP '{' ('{' :: (gapText g5 ++ ('}' :: []))) =
      .ok (gapText g5 ++ ('}' :: []), '{') from rfl)]
    rw [pbind_popt_sep_gap (c := '}') rfl g5 (n + 1) hok5 (by omega)]
    have hlistf : sepList0 (separatorP (n + 1)) (functionP (n + 1)) (n + 1) ('}' :: []) =
        .ok ('}' :: [], []) := by
      unfold sepList0
      rw [show functionP (n + 1) ('}' :: []) = .error ('}' :: []) from rfl]
    rw [pbind_step hlistf]
    rw [pbind_step (show popt (separatorP (n + 1)) ('}' :: []) =
      .ok ('}' :: [], none) from rfl)]
    rw [pbind_step (show charP '}' ('}' :: ([] : Input)) = .ok ([], '}') from rfl)]
    rfl
  unfold serviceRefP
  rw [pbind_step (show docCommentP (serviceSpaced (t1 :: ts1) (t2 :: ts2) (t3 :: ts3) g4 g5) =
    .ok (serviceSpaced (t1 :: ts1) (t2 :: ts2) (t3 :: ts3) g4 g5, none) from rfl)]
  rw [pmap_step hbody]

theorem enumRefP_gap (n : Nat) (g1 g2 g3 g4 g5 g6 : List SepTok)
    (h1 : g1 ≠ [])
    (hok1 : gapOkB g1 'E' = true) (hok2 : gapOkB g2 '{' = true)
    (hok3 : gapOkB g3 'A' = true) (hok4 : gapOkB g4 ',' = true)
    (hok5 : gapOkB g5 'B' = true) (hok6 : gapOkB g6 '}' = true)
    (hlen1 : g1.length ≤ n) (hlen2 : g2.length ≤ n) (hlen3 : g3.length ≤ n)
    (hlen4 : g4.length ≤ n) (hlen5 : g5.length ≤ n) (hlen6 : g6.length ≤ n) :
    enumRefP (n + 1) (enumSpaced g1 g2 g3 g4 g5 g6) =
      .ok ([], ⟨none, ['E'], [⟨['A'], none⟩, ⟨['B'], none⟩]⟩) := by
  obtain ⟨t1, ts1, rfl⟩ : ∃ t ts, g1 = t :: ts := by
    cases g1 with
    | nil => exact absurd rfl h1
    | cons t ts => exact ⟨t, ts, rfl⟩
  have hA : enumValueP (n + 1) ('A' :: (gapText g4 ++ (',' :: (gapText g5 ++
      ('B' :: (gapText g6 ++ ('}' :: []))))))) =
      .ok (gapText g4 ++ (',' :: (gapText g5 ++ ('B' :: (gapText g6 ++ ('}' :: []))))),
        ⟨['A'], none⟩) := by
    unfold enumValueP
    simp only [bind_eq, pure_eq]
    rw [pbind_step (identifierP_run2 (by decide)
      (spanWhile_stop (gapText_head_false hok4 (by decide) (by decide))))]
    rw [pbind_step (popt_err (show pbind (popt (separatorP (n + 1)))
      (fun _ => pbind (charP '=')
        (fun _ => pbind (popt (separatorP (n + 1))) (fun _ => intConstantP)))
      (gapText g4 ++ (',' :: (gapText g5 ++ ('B' :: (gapText g6 ++ ('}' :: [])))))) =
      .error (',' :: (gapText g5 ++ ('B' :: (gapText g6 ++ ('}' :: []))))) from by
        rw [pbind_popt_sep_gap (c := ',') rfl g4 (n + 1) hok4 (by omega)]
        exact pbind_err rfl))]
    rfl
  have hB : enumValueP (n + 1) ('B' :: (gapText g6 ++ ('}' :: []))) =
      .ok (gapText g6 ++ ('}' :: []), ⟨['B'], none⟩) := by
    unfold enumValueP
    simp only [bind_eq, pure_eq]
    rw [pbind_step (identifierP_run2 (by decide)
      (spanWhile_stop (gapText_head_false hok6 (by decide) (by decide))))]
    rw [pbind_step (popt_err (show pbind (popt (separatorP (n + 1)))
      (fun _ => pbind (charP '=')
        (fun _ => pbind (popt (separatorP (n + 1))) (fun _ => intConstantP)))
      (gapText g6 ++ ('}' :: [])) = .error ('}' :: []) from by
        rw [pbind_popt_sep_gap (c := '}') rfl g6 (n + 1) hok6 (by omega)]
        exact pbind_err rfl))]
    rfl
  have hbody : enumBodyP (n + 1) (enumSpaced (t1 :: ts1) g2 g3 g4 g5 g6) =
      .ok ([], (['E'], [⟨['A'], none⟩, ⟨['B'], none⟩])) := by
    unfold enumBodyP enumSpaced
    simp only [bind_eq, pure_eq]
    rw [pbind_step (tagP_append "enum".toList _)]
    rw [pbind_sep_gap (c := 'E') rfl t1 ts1 (n + 1) hok1 (by
      simp only [List.length_cons] at hlen1
      omega)]
    rw [pbind_step (identifierP_run2 (by decide)
      (spanWhile_stop (gapText_head_false hok2 (by decide) (by decide))))]
    rw [pbind_popt_sep_gap (c := '{') rfl g2 (n + 1) hok2 (by omega)]
    rw [pbind_step (show charP '{' ('{' :: (gapText g3 ++ ('A' :: (gapText g4 ++
      (',' :: (gapText g5 ++ ('B' :: (gapText g6 ++ ('}' :: []))))))))) =
      .ok (gapText g3 ++ ('A' :: (gapText g4 ++ (',' :: (gapText g5 ++
        ('B' :: (gapText g6 ++ ('}' :: []))))))), '{') from rfl)]
    rw [pbind_popt_sep_gap (c := 'A') rfl g3 (n + 1) hok3 (by omega)]
    have hlist : sepList0 (parseListSeparator (n + 1)) (enumValueP (n + 1)) (n + 1)
        ('A' :: (gapText g4 ++ (',' :: (gapText g5 ++
          ('B' :: (gapText g6 ++ ('}' :: []))))))) =
        .ok (gapText g6 ++ ('}' :: []), [⟨['A'], none⟩, ⟨['B'], none⟩]) := by
      rw [sepList0_start hA]
      rw [sepListLoop_step (parseListSeparator_comma_gap (d := 'B') rfl g4 g5 (n + 1)
        hok4 hok5 (by omega) (by omega)) cons_mid_ne hB]
      exact sepListLoop_plsep_end hok6 (by omega) rfl rfl rfl
    rw [pbind_step hlist]
    rw [pbind_popt_plsep_gap (c := '}') rfl rfl g6 (n + 1) hok6 (by omega)]
    rw [pbind_step (show popt (separatorP (n + 1)) ('}' :: []) =
      .ok ('}' :: [], none) from rfl)]
    rw [pbind_step (show charP '}' ('}' :: ([] : Input)) = .ok ([], '}') from rfl)]
    rfl
  unfold enumRefP
  rw [pbind_step (show docCommentP (enumSpaced (t1 :: ts1) g2 g3 g4 g5 g6) =
    .ok (enumSpaced (t1 :: ts1) g2 g3 g4 g5 g6, none) from rfl)]
  rw [pmap_step hbody]

/-! ### The claims -/

/-- C1: for every definition kind and every input string, the owned-form
parser succeeds exactly when the view-form parser succeeds, returns the
same remainder, and its node equals the view-to-owned conversion of the
view node (the first seven conjuncts state the owned parse as the map of
the view parse, which subsumes success-iff-success and equal remainders);
and the conversion is total (each `toOwned` is a total Lean function) and
preserves every field — doc comment, name, type, value, children,
extension, functions — without dropping, reordering, or reinterpreting
any of them (the remaining conjuncts, including that children lists are
converted by `List.map`, preserving order and length). -/
theorem c1_view_owned_refinement :
    (∀ s, Const.parse s = (ConstRef.parse s).map (fun p => (p.1, p.2.toOwned)))
    ∧ (∀ s, Typedef.parse s = (TypedefRef.parse s).map (fun p => (p.1, p.2.toOwned)))
    ∧ (∀ s, Enum.parse s = (EnumRef.parse s).map (fun p => (p.1, p.2.toOwned)))
    ∧ (∀ s, Struct.parse s = (StructRef.parse s).map (fun p => (p.1, p.2.toOwned)))
    ∧ (∀ s, Union.parse s = (UnionRef.parse s).map (fun p => (p.1, p.2.toOwned)))
    ∧ (∀ s, Exception.parse s = (ExceptionRef.parse s).map (fun p => (p.1, p.2.toOwned)))
    ∧ (∀ s, Service.parse s = (ServiceRef.parse s).map (fun p => (p.1, p.2.toOwned)))
    ∧ (∀ r : ConstRef, r.toOwned.doc_comment = r.doc_comment.map List.asString
        ∧ r.toOwned.name = r.name.asString
        ∧ r.toOwned.type_ = r.type_.toOwned
        ∧ r.toOwned.value = r.value.toOwned)
    ∧ (∀ r : TypedefRef, r.toOwned.doc_comment = r.doc_comment.map List.asString
        ∧ r.toOwned.old = r.old.toOwned
        ∧ r.toOwned.alias_ = r.alias_.asString)
    ∧ (∀ r : EnumRef, r.toOwned.doc_comment = r.doc_comment.map List.asString
        ∧ r.toOwned.name = r.name.asString
        ∧ r.toOwned.children = r.children.map EnumValueRef.toOwned)
    ∧ (∀ r : EnumValueRef, r.toOwned.name = r.name.asString ∧ r.toOwned.value = r.value)
    ∧ (∀ r : StructRef, r.toOwned.doc_comment = r.doc_comment.map List.asString
        ∧ r.toOwned.name = r.name.asString
        ∧ r.toOwned.fields = r.fields.map FieldRef.toOwned)
    ∧ (∀ r : UnionRef, r.toOwned.doc_comment = r.doc_comment.map List.asString
        ∧ r.toOwned.name = r.name.asString
        ∧ r.toOwned.fields = r.fields.map FieldRef.toOwned)
    ∧ (∀ r : ExceptionRef, r.toOwned.doc_comment = r.doc_comment.map List.asString
        ∧ r.toOwned.name = r.name.asString
        ∧ r.toOwned.fields = r.fields.map FieldRef.toOwned)
    ∧ (∀ r : ServiceRef, r.toOwned.doc_comment = r.doc_comment.map List.asString
        ∧ r.toOwned.name = r.name.asString
        ∧ r.toOwned.extension = r.extension.map List.asString
        ∧ r.toOwned.functions = r.functions.map FunctionRef.toOwned)
    ∧ (∀ r : FieldRef, r.toOwned.id = r.id ∧ r.toOwned.required = r.required
        ∧ r.toOwned.type_ = r.type_.toOwned
        ∧ r.toOwned.name = r.name.asString
        ∧ r.toOwned.default = r.default.map ConstValueRef.toOwned)
    ∧ (∀ r : FunctionRef, r.toOwned.oneway = r.oneway
        ∧ r.toOwned.returns = r.returns.map FieldTypeRef.toOwned
        ∧ r.toOwned.name = r.name.asString
        ∧ r.toOwned.parameters = r.parameters.map FieldRef.toOwned
        ∧ r.toOwned.exceptions = r.exceptions.map (fun xs => xs.map FieldRef.toOwned))
    ∧ (∀ xs, cvListToOwned xs = xs.map ConstValueRef.toOwned)
    ∧ (∀ xs, cvPairsToOwned xs = xs.map (fun p => (p.1.toOwned, p.2.toOwned))) := by
  refine ⟨fun _ => rfl, fun _ => rfl, fun _ => rfl, fun _ => rfl, fun _ => rfl,
    fun _ => rfl, fun _ => rfl, ?_, ?_, ?_, ?_, ?_, ?_, ?_, ?_, ?_, ?_,
    cvListToOwned_eq_map, cvPairsToOwned_eq_map⟩
  · intro r; obtain ⟨doc, nm, t, v⟩ := r
    exact ⟨by cases doc <;> rfl, rfl, rfl, rfl⟩
  · intro r; obtain ⟨doc, old, al⟩ := r
    exact ⟨by cases doc <;> rfl, rfl, rfl⟩
  · intro r; obtain ⟨doc, nm, cs⟩ := r
    exact ⟨by cases doc <;> rfl, rfl, rfl⟩
  · intro r; exact ⟨rfl, rfl⟩
  · intro r; obtain ⟨doc, nm, fs⟩ := r
    exact ⟨by cases doc <;> rfl, rfl, rfl⟩
  · intro r; obtain ⟨doc, nm, fs⟩ := r
    exact ⟨by cases doc <;> rfl, rfl, rfl⟩
  · intro r; obtain ⟨doc, nm, fs⟩ := r
    exact ⟨by cases doc <;> rfl, rfl, rfl⟩
  · intro r; obtain ⟨doc, nm, ext, fns⟩ := r
    exact ⟨by cases doc <;> rfl, rfl, rfl, rfl⟩
  · intro r; exact ⟨rfl, rfl, rfl, rfl, rfl⟩
  · intro r; exact ⟨rfl, rfl, rfl, rfl, rfl⟩

/-- C2: parsing `"struct user{1:optional string name; 2:i32 age=18}"` with
the Struct parser succeeds with empty remainder, yielding struct `user`
with exactly two fields in source order — `name` with id 1, requiredness
explicitly optional (`some false`), type string, no default; `age` with
id 2, requiredness unspecified (`none`, a third state distinct from both
optional `some false` and required `some true`), type i32, default
integer constant 18. -/
theorem c2_struct_tristate_requiredness :
    StructRef.parse "struct user{1:optional string name; 2:i32 age=18}" =
      .ok ([], ⟨none, "user".toList,
        [⟨some 1, some false, .string, "name".toList, none⟩,
         ⟨some 2, none, .i32, "age".toList, some (.int 18)⟩]⟩)
    ∧ ((none : Option Bool) == some false) = false
    ∧ ((none : Option Bool) == some true) = false
    ∧ ((some false : Option Bool) == some true) = false :=
  ⟨rfl, rfl, rfl, rfl⟩

/-- C3: the Typedef parser rejects a bare identifier reference in the type
position (for example `"typedef MyAlias X"` fails), and whenever it
succeeds the `old` field is a base-type or container-type variant, never
the named-reference variant. -/
theorem c3_typedef_base_or_container :
    TypedefRef.parse "typedef MyAlias X" = .error ("MyAlias X".toList)
    ∧ (∀ s rest node, TypedefRef.parse s = .ok (rest, node) →
        isBaseOrContainer node.old = true) := by
  refine ⟨rfl, ?_⟩
  intro s rest node h
  unfold TypedefRef.parse at h
  exact typedefRefP_old h

/-- Witness for C3: the success branch applied to `"typedef i32 MyI32"`,
whose parse succeeds with `old = i32`, a base-type variant. -/
theorem c3_typedef_base_or_container_witness :
    isBaseOrContainer (TypedefRef.mk none FieldTypeRef.i32 "MyI32".toList).old = true :=
  c3_typedef_base_or_container.2 "typedef i32 MyI32" []
    (TypedefRef.mk none FieldTypeRef.i32 "MyI32".toList) (by rfl)

/-- C4 counterexample: feeding `"structZZZ foo {}"` to the Struct parser
does fail, but the failure value reports the input advanced past the
matched `struct` keyword (`"ZZZ foo {}"`), not the original offset: the
claim's "reporting the original offset" is false at this input. -/
theorem c4_original_offset_counterexample :
    StructRef.parse "structZZZ foo {}" = .error ("ZZZ foo {}".toList)
    ∧ (("ZZZ foo {}".toList : List Char) == "structZZZ foo {}".toList) = false :=
  ⟨rfl, rfl⟩

/-- C4 amended: feeding `"structZZZ foo {}"` to the Struct parser fails;
the failure is a plain error value (no remainder or node is produced, so
the caller retains the original input unconsumed), but the reported
failure position is the original input advanced by the six characters of
the matched `struct` keyword prefix, not the original offset. -/
theorem c4_struct_misspelled_keyword :
    StructRef.parse "structZZZ foo {}" =
      .error (("structZZZ foo {}".toList).drop 6) := rfl

/-- C6: the Enum parser maps both `"enum PL { Rust Go=2 , Cpp = 3 }"` and
`"enum PL{Rust Go=2,Cpp=3}"` to the same node `PL` with children exactly
`Rust` (no explicit value), `Go = 2`, `Cpp = 3` in order; and the
comma/semicolon between entries is optional, a bare whitespace gap
sufficing (third conjunct). -/
theorem c6_enum_same_node :
    EnumRef.parse "enum PL { Rust Go=2 , Cpp = 3 }" =
      .ok ([], ⟨none, "PL".toList,
        [⟨"Rust".toList, none⟩, ⟨"Go".toList, some 2⟩, ⟨"Cpp".toList, some 3⟩]⟩)
    ∧ EnumRef.parse "enum PL{Rust Go=2,Cpp=3}" =
      .ok ([], ⟨none, "PL".toList,
        [⟨"Rust".toList, none⟩, ⟨"Go".toList, some 2⟩, ⟨"Cpp".toList, some 3⟩]⟩)
    ∧ EnumRef.parse "enum PL{Rust Go=2 Cpp=3}" =
      .ok ([], ⟨none, "PL".toList,
        [⟨"Rust".toList, none⟩, ⟨"Go".toList, some 2⟩, ⟨"Cpp".toList, some 3⟩]⟩) :=
  ⟨rfl, rfl, rfl⟩

/-- C7: the Service parser on the DemoService input yields name
`DemoService`, extension `some BaseService`, and exactly two structurally
equal functions `GetUser` — not oneway, returning string, one parameter
`name : string` with requiredness explicitly required, and no throws
clause. -/
theorem c7_service_extension_functions :
    ServiceRef.parse "service DemoService extends BaseService { string GetUser(required string name), string GetUser(required string name) }" =
      .ok ([], ⟨none, "DemoService".toList, some "BaseService".toList,
        [⟨false, some .string, "GetUser".toList,
          [⟨none, some true, .string, "name".toList, none⟩], none⟩,
         ⟨false, some .string, "GetUser".toList,
          [⟨none, some true, .string, "name".toList, none⟩], none⟩]⟩) := rfl

/-- C10: every brace-delimited definition accepts an empty body, with or
without separators inside the braces, yielding an empty
children/fields/functions sequence. -/
theorem c10_empty_bodies :
    EnumRef.parse "enum E{}" = .ok ([], ⟨none, "E".toList, []⟩)
    ∧ StructRef.parse "struct S{}" = .ok ([], ⟨none, "S".toList, []⟩)
    ∧ UnionRef.parse "union U{}" = .ok ([], ⟨none, "U".toList, []⟩)
    ∧ ExceptionRef.parse "exception X{}" = .ok ([], ⟨none, "X".toList, []⟩)
    ∧ ServiceRef.parse "service Sv{}" = .ok ([], ⟨none, "Sv".toList, none, []⟩)
    ∧ EnumRef.parse "enum E{ }" = .ok ([], ⟨none, "E".toList, []⟩)
    ∧ StructRef.parse "struct S{ }" = .ok ([], ⟨none, "S".toList, []⟩)
    ∧ UnionRef.parse "union U{ }" = .ok ([], ⟨none, "U".toList, []⟩)
    ∧ ExceptionRef.parse "exception X{ }" = .ok ([], ⟨none, "X".toList, []⟩)
    ∧ ServiceRef.parse "service Sv{ }" = .ok ([], ⟨none, "Sv".toList, none, []⟩) :=
  ⟨rfl, rfl, rfl, rfl, rfl, rfl, rfl, rfl, rfl, rfl⟩

/-- C5: struct/union/exception fields are separated inside the braces by
plain separators (whitespace/comment runs) — a bare whitespace gap with no
comma or semicolon separates two fields (first three conjuncts) — while
enum bodies are delimited by list-separators: a bare comma with no gap
separates enum entries (fourth conjunct).  A comma is not a struct-body
separator: after a field consumes its optional trailing list separator,
the second comma in `"struct S{1:i32 a,,2:i32 b}"` cannot be consumed and
the parse fails there (fifth conjunct).  At the primitive level, the plain
separator rejects a leading comma or semicolon while the enum
list-separator accepts one (remaining conjuncts). -/
theorem c5_field_vs_enum_separators :
    StructRef.parse "struct S{1:i32 a 2:i32 b}" =
      .ok ([], ⟨none, "S".toList,
        [⟨some 1, none, .i32, "a".toList, none⟩,
         ⟨some 2, none, .i32, "b".toList, none⟩]⟩)
    ∧ UnionRef.parse "union S{1:i32 a 2:i32 b}" =
      .ok ([], ⟨none, "S".toList,
        [⟨some 1, none, .i32, "a".toList, none⟩,
         ⟨some 2, none, .i32, "b".toList, none⟩]⟩)
    ∧ ExceptionRef.parse "exception S{1:i32 a 2:i32 b}" =
      .ok ([], ⟨none, "S".toList,
        [⟨some 1, none, .i32, "a".toList, none⟩,
         ⟨some 2, none, .i32, "b".toList, none⟩]⟩)
    ∧ EnumRef.parse "enum E{A,B}" =
      .ok ([], ⟨none, "E".toList, [⟨"A".toList, none⟩, ⟨"B".toList, none⟩]⟩)
    ∧ StructRef.parse "struct S{1:i32 a,,2:i32 b}" =
        .error (("struct S{1:i32 a,,2:i32 b}".toList).drop 17)
    ∧ (∀ fuel rest, separatorP fuel (',' :: rest) = .error (',' :: rest))
    ∧ (∀ fuel rest, separatorP fuel (';' :: rest) = .error (';' :: rest))
    ∧ (∀ fuel, parseListSeparator fuel [','] = .ok ([], ()))
    ∧ (∀ fuel, parseListSeparator fuel [';'] = .ok ([], ())) :=
  ⟨rfl, rfl, rfl, rfl, rfl, fun _ _ => rfl, fun _ _ => rfl, fun _ => rfl, fun _ => rfl⟩

/-- C8: for every definition kind — typedef, const, enum, struct, union,
exception, service — inserting extra whitespace or comments at any
separator-eligible position between the tokens of a valid construct does
not change the parsed node, only the consumed length: each of the first
seven conjuncts quantifies every inter-token gap of an instance of that
kind over an arbitrary well-formed separator run (`gapOkB`: any mix of
horizontal-space runs, `\n`/`\r\n` line breaks, `//`-, `#`- and
`/*...*/`-comments; runs that the grammar makes mandatory are required
non-empty, the rest may also be empty), and the parse always returns the
one fixed node with empty remainder — the whole input, whatever the
gaps, is consumed.  The last three conjuncts give the claim's concrete
pair, `"typedef i32 MyI32"` and `"typedef   i32    MyI32"`, which parse
to identical Typedef nodes, and a comment-bearing variant of the same
instance yielding that node again. -/
theorem c8_whitespace_insensitivity :
    (∀ (n : Nat) (g1 g2 : List SepTok), g1 ≠ [] → g2 ≠ [] →
      gapOkB g1 'i' = true → gapOkB g2 'M' = true →
      g1.length ≤ n → g2.length ≤ n →
      typedefRefP (n + 1) (typedefSpacedG g1 g2) =
        .ok ([], ⟨none, .i32, ['M', 'y', 'I', '3', '2']⟩))
    ∧ (∀ (n : Nat) (g1 g2 g3 g4 : List SepTok), g1 ≠ [] → g2 ≠ [] →
      gapOkB g1 'i' = true → gapOkB g2 'N' = true →
      gapOkB g3 '=' = true → gapOkB g4 '5' = true →
      g1.length ≤ n → g2.length ≤ n → g3.length ≤ n → g4.length ≤ n →
      constRefP (n + 1) (constSpaced g1 g2 g3 g4) =
        .ok ([], ⟨none, ['N'], .i32, .int 5⟩))
    ∧ (∀ (n : Nat) (g1 g2 g3 g4 g5 g6 : List SepTok), g1 ≠ [] →
      gapOkB g1 'E' = true → gapOkB g2 '{' = true →
      gapOkB g3 'A' = true → gapOkB g4 ',' = true →
      gapOkB g5 'B' = true → gapOkB g6 '}' = true →
      g1.length ≤ n → g2.length ≤ n → g3.length ≤ n →
      g4.length ≤ n → g5.length ≤ n → g6.length ≤ n →
      enumRefP (n + 1) (enumSpaced g1 g2 g3 g4 g5 g6) =
        .ok ([], ⟨none, ['E'], [⟨['A'], none⟩, ⟨['B'], none⟩]⟩))
    ∧ (∀ (n : Nat) (g1 g2 g3 g4 g5 : List SepTok), g1 ≠ [] → g4 ≠ [] →
      gapOkB g1 'S' = true → gapOkB g2 '{' = true → gapOkB g3 'i' = true →
      gapOkB g4 'a' = true → gapOkB g5 '}' = true →
      g1.length ≤ n → g2.length ≤ n → g3.length ≤ n →
      g4.length ≤ n → g5.length ≤ n →
      structRefP (n + 1) (fieldsSpaced "struct".toList g1 g2 g3 g4 g5) =
        .ok ([], ⟨none, ['S'], [⟨none, none, .i32, ['a'], none⟩]⟩))
    ∧ (∀ (n : Nat) (g1 g2 g3 g4 g5 : List SepTok), g1 ≠ [] → g4 ≠ [] →
      gapOkB g1 'S' = true → gapOkB g2 '{' = true → gapOkB g3 'i' = true →
      gapOkB g4 'a' = true → gapOkB g5 '}' = true →
      g1.length ≤ n → g2.length ≤ n → g3.length ≤ n →
      g4.length ≤ n → g5.length ≤ n →
      unionRefP (n + 1) (fieldsSpaced "union".toList g1 g2 g3 g4 g5) =
        .ok ([], ⟨none, ['S'], [⟨none, none, .i32, ['a'], none⟩]⟩))
    ∧ (∀ (n : Nat) (g1 g2 g3 g4 g5 : List SepTok), g1 ≠ [] → g4 ≠ [] →
      gapOkB g1 'S' = true → gapOkB g2 '{' = true → gapOkB g3 'i' = true →
      gapOkB g4 'a' = true → gapOkB g5 '}' = true →
      g1.length ≤ n → g2.length ≤ n → g3.length ≤ n →
      g4.length ≤ n → g5.length ≤ n →
      exceptionRefP (n + 1) (fieldsSpaced "exception".toList g1 g2 g3 g4 g5) =
        .ok ([], ⟨none, ['S'], [⟨none, none, .i32, ['a'], none⟩]⟩))
    ∧ (∀ (n : Nat) (g1 g2 g3 g4 g5 : List SepTok), g1 ≠ [] → g2 ≠ [] → g3 ≠ [] →
      gapOkB g1 'S' = true → gapOkB g2 'e' = true → gapOkB g3 'B' = true →
      gapOkB g4 '{' = true → gapOkB g5 '}' = true →
      g1.length ≤ n → g2.length ≤ n → g3.length ≤ n →
      g4.length ≤ n → g5.length ≤ n →
      serviceRefP (n + 1) (serviceSpaced g1 g2 g3 g4 g5) =
        .ok ([], ⟨none, ['S', 'v'], some ['B', 'a', 's', 'e'], []⟩))
    ∧ TypedefRef.parse "typedef i32 MyI32" =
        .ok ([], ⟨none, .i32, "MyI32".toList⟩)
    ∧ TypedefRef.parse "typedef   i32    MyI32" =
        .ok ([], ⟨none, .i32, "MyI32".toList⟩)
    ∧ TypedefRef.parse "typedef /*a*/ i32 /*b*/ MyI32" =
        .ok ([], ⟨none, .i32, "MyI32".toList⟩) :=
  ⟨fun n g1 g2 h1 h2 hok1 hok2 hl1 hl2 =>
      typedefRefP_gap n g1 g2 h1 h2 hok1 hok2 hl1 hl2,
    fun n g1 g2 g3 g4 h1 h2 hok1 hok2 hok3 hok4 hl1 hl2 hl3 hl4 =>
      constRefP_gap n g1 g2 g3 g4 h1 h2 hok1 hok2 hok3 hok4 hl1 hl2 hl3 hl4,
    fun n g1 g2 g3 g4 g5 g6 h1 hok1 hok2 hok3 hok4 hok5 hok6 hl1 hl2 hl3 hl4 hl5 hl6 =>
      enumRefP_gap n g1 g2 g3 g4 g5 g6 h1 hok1 hok2 hok3 hok4 hok5 hok6
        hl1 hl2 hl3 hl4 hl5 hl6,
    fun n g1 g2 g3 g4 g5 h1 h4 hok1 hok2 hok3 hok4 hok5 hl1 hl2 hl3 hl4 hl5 =>
      structRefP_gap n g1 g2 g3 g4 g5 h1 h4 hok1 hok2 hok3 hok4 hok5
        hl1 hl2 hl3 hl4 hl5,
    fun n g1 g2 g3 g4 g5 h1 h4 hok1 hok2 hok3 hok4 hok5 hl1 hl2 hl3 hl4 hl5 =>
      unionRefP_gap n g1 g2 g3 g4 g5 h1 h4 hok1 hok2 hok3 hok4 hok5
        hl1 hl2 hl3 hl4 hl5,
    fun n g1 g2 g3 g4 g5 h1 h4 hok1 hok2 hok3 hok4 hok5 hl1 hl2 hl3 hl4 hl5 =>
      exceptionRefP_gap n g1 g2 g3 g4 g5 h1 h4 hok1 hok2 hok3 hok4 hok5
        hl1 hl2 hl3 hl4 hl5,
    fun n g1 g2 g3 g4 g5 h1 h2 h3 hok1 hok2 hok3 hok4 hok5 hl1 hl2 hl3 hl4 hl5 =>
      serviceRefP_gap n g1 g2 g3 g4 g5 h1 h2 h3 hok1 hok2 hok3 hok4 hok5
        hl1 hl2 hl3 hl4 hl5,
    rfl, rfl, rfl⟩

theorem c8_whitespace_insensitivity_witness :
    typedefRefP 4
        (typedefSpacedG [.hs [' '], .blockC ['a'], .crnl]
          [.lineSlash [' ', 'x'], .nl, .hs ['\t']]) =
      .ok ([], ⟨none, .i32, ['M', 'y', 'I', '3', '2']⟩) :=
  c8_whitespace_insensitivity.1 3
    [.hs [' '], .blockC ['a'], .crnl] [.lineSlash [' ', 'x'], .nl, .hs ['\t']]
    (by decide) (by decide) (by decide) (by decide) (by decide) (by decide)

/-- C9: for every definition parser, whenever a parse succeeds with a
captured doc comment, the input begins with a comment immediately
followed by a line break, then optional leading horizontal space, then
the construct keyword with no other intervening content (`docPrefixOk`);
and when the input starts directly with the construct keyword, the
captured doc comment is `none`.  Stated for all seven kinds. -/
theorem c9_doc_comment_attachment :
    (∀ fuel input rest node, constRefP fuel input = .ok (rest, node) →
      node.doc_comment = none ∨
        ∃ c, node.doc_comment = some c ∧ docPrefixOk "const".toList input c)
    ∧ (∀ fuel t rest node, constRefP fuel ("const".toList ++ t) = .ok (rest, node) →
      node.doc_comment = none)
    ∧ (∀ fuel input rest node, typedefRefP fuel input = .ok (rest, node) →
      node.doc_comment = none ∨
        ∃ c, node.doc_comment = some c ∧ docPrefixOk "typedef".toList input c)
    ∧ (∀ fuel t rest node, typedefRefP fuel ("typedef".toList ++ t) = .ok (rest, node) →
      node.doc_comment = none)
    ∧ (∀ fuel input rest node, enumRefP fuel input = .ok (rest, node) →
      node.doc_comment = none ∨
        ∃ c, node.doc_comment = some c ∧ docPrefixOk "enum".toList input c)
    ∧ (∀ fuel t rest node, enumRefP fuel ("enum".toList ++ t) = .ok (rest, node) →
      node.doc_comment = none)
    ∧ (∀ fuel input rest node, structRefP fuel input = .ok (rest, node) →
      node.doc_comment = none ∨
        ∃ c, node.doc_comment = some c ∧ docPrefixOk "struct".toList input c)
    ∧ (∀ fuel t rest node, structRefP fuel ("struct".toList ++ t) = .ok (rest, node) →
      node.doc_comment = none)
    ∧ (∀ fuel input rest node, unionRefP fuel input = .ok (rest, node) →
      node.doc_comment = none ∨
        ∃ c, node.doc_comment = some c ∧ docPrefixOk "union".toList input c)
    ∧ (∀ fuel t rest node, unionRefP fuel ("union".toList ++ t) = .ok (rest, node) →
      node.doc_comment = none)
    ∧ (∀ fuel input rest node, exceptionRefP fuel input = .ok (rest, node) →
      node.doc_comment = none ∨
        ∃ c, node.doc_comment = some c ∧ docPrefixOk "exception".toList input c)
    ∧ (∀ fuel t rest node, exceptionRefP fuel ("exception".toList ++ t) = .ok (rest, node) →
      node.doc_comment = none)
    ∧ (∀ fuel input rest node, serviceRefP fuel input = .ok (rest, node) →
      node.doc_comment = none ∨
        ∃ c, node.doc_comment = some c ∧ docPrefixOk "service".toList input c)
    ∧ (∀ fuel t rest node, serviceRefP fuel ("service".toList ++ t) = .ok (rest, node) →
      node.doc_comment = none) := by
  refine ⟨?_, ?_, ?_, ?_, ?_, ?_, ?_, ?_, ?_, ?_, ?_, ?_, ?_, ?_⟩
  · intro fuel input rest node h
    obtain ⟨i1, hdoc, htag⟩ := constRefP_header h
    exact doc_attach_of_header hdoc htag
  · intro fuel t rest node h
    obtain ⟨i1, hdoc, _⟩ := constRefP_header h
    rw [show docCommentP ("const".toList ++ t) =
      .ok ("const".toList ++ t, none) from rfl] at hdoc
    injection hdoc with h1
    injection h1 with _ h2
    exact h2.symm
  · intro fuel input rest node h
    obtain ⟨i1, hdoc, htag⟩ := typedefRefP_header h
    exact doc_attach_of_header hdoc htag
  · intro fuel t rest node h
    obtain ⟨i1, hdoc, _⟩ := typedefRefP_header h
    rw [show docCommentP ("typedef".toList ++ t) =
      .ok ("typedef".toList ++ t, none) from rfl] at hdoc
    injection hdoc with h1
    injection h1 with _ h2
    exact h2.symm
  · intro fuel input rest node h
    obtain ⟨i1, hdoc, htag⟩ := enumRefP_header h
    exact doc_attach_of_header hdoc htag
  · intro fuel t rest node h
    obtain ⟨i1, hdoc, _⟩ := enumRefP_header h
    rw [show docCommentP ("enum".toList ++ t) =
      .ok ("enum".toList ++ t, none) from rfl] at hdoc
    injection hdoc with h1
    injection h1 with _ h2
    exact h2.symm
  · intro fuel input rest node h
    obtain ⟨i1, hdoc, htag⟩ := structRefP_header h
    exact doc_attach_of_header hdoc htag
  · intro fuel t rest node h
    obtain ⟨i1, hdoc, _⟩ := structRefP_header h
    rw [show docCommentP ("struct".toList ++ t) =
      .ok ("struct".toList ++ t, none) from rfl] at hdoc
    injection hdoc with h1
    injection h1 with _ h2
    exact h2.symm
  · intro fuel input rest node h
    obtain ⟨i1, hdoc, htag⟩ := unionRefP_header h
    exact doc_attach_of_header hdoc htag
  · intro fuel t rest node h
    obtain ⟨i1, hdoc, _⟩ := unionRefP_header h
    rw [show docCommentP ("union".toList ++ t) =
      .ok ("union".toList ++ t, none) from rfl] at hdoc
    injection hdoc with h1
    injection h1 with _ h2
    exact h2.symm
  · intro fuel input rest node h
    obtain ⟨i1, hdoc, htag⟩ := exceptionRefP_header h
    exact doc_attach_of_header hdoc htag
  · intro fuel t rest node h
    obtain ⟨i1, hdoc, _⟩ := exceptionRefP_header h
    rw [show docCommentP ("exception".toList ++ t) =
      .ok ("exception".toList ++ t, none) from rfl] at hdoc
    injection hdoc with h1
    injection h1 with _ h2
    exact h2.symm
  · intro fuel input rest node h
    obtain ⟨i1, hdoc, htag⟩ := serviceRefP_header h
    exact doc_attach_of_header hdoc htag
  · intro fuel t rest node h
    obtain ⟨i1, hdoc, _⟩ := serviceRefP_header h
    rw [show docCommentP ("service".toList ++ t) =
      .ok ("service".toList ++ t, none) from rfl] at hdoc
    injection hdoc with h1
    injection h1 with _ h2
    exact h2.symm

/-- Witness for C9: the Const conjunct applied to
`"// d\nconst i32 N = 1"`, whose parse succeeds and captures the doc
comment text `" d"`. -/
theorem c9_doc_comment_attachment_witness :
    (ConstRef.mk (some (' ' :: 'd' :: [])) ('N' :: [])
        FieldTypeRef.i32 (ConstValueRef.int 1)).doc_comment = none ∨
      ∃ c, (ConstRef.mk (some (' ' :: 'd' :: [])) ('N' :: [])
        FieldTypeRef.i32 (ConstValueRef.int 1)).doc_comment = some c ∧
        docPrefixOk "const".toList ("// d\nconst i32 N = 1".toList) c :=
  c9_doc_comment_attachment.1 64 ("// d\nconst i32 N = 1".toList) []
    (ConstRef.mk (some (' ' :: 'd' :: [])) ('N' :: [])
      FieldTypeRef.i32 (ConstValueRef.int 1)) (by rfl)

end ThriftParser
